import Mathlib

/-!
Shallow embedding of the kube-cel crate (Kubernetes CRD CEL validation):
rule compilation (src/compilation.rs), schema-tree walking and rule
evaluation (src/validation.rs), JSON-to-CEL value conversion and Go-style
duration parsing (src/values.rs), and the exact-decimal quantity type
(src/quantity.rs).

The CEL expression engine (the external cel crate) is out of scope of the
validation pipeline and is modelled abstractly as a structure of functions
(compile / referenced-variables / execute), mirroring the interface the
pipeline consumes.  Machine integers are modelled as Nat/Int, with explicit
wrapping where the Rust release-mode semantics wraps.  Rust f64 values are
modelled as exact rationals; no verified claim depends on rounding.
-/

namespace KubeCel

/-- Model of serde_json::Number.  serde stores a number as a non-negative
64-bit integer, a negative signed 64-bit integer, or a double; the double
payload is modelled as an exact rational (no claim inspects it). -/
inductive JNumber where
  | posInt (n : Nat)
  | negInt (n : Int)
  | float (q : Rat)
deriving DecidableEq, Repr

/-- Largest value of the Rust i64 type. -/
def i64Max : Int := 9223372036854775807

/-- Smallest value of the Rust i64 type. -/
def i64Min : Int := -9223372036854775808

/-- Model of serde_json::Number::as_i64: a stored non-negative integer
converts when it fits in i64; a stored negative integer always converts;
a double never does. -/
def JNumber.as_i64 : JNumber → Option Int
  | .posInt n => if (n : Int) ≤ i64Max then some (n : Int) else none
  | .negInt n => some n
  | .float _ => none

/-- Model of serde_json::Number::as_u64. -/
def JNumber.as_u64 : JNumber → Option Nat
  | .posInt n => some n
  | .negInt _ => none
  | .float _ => none

/-- Model of serde_json::Number::as_f64, which succeeds on every serde
number (integer payloads are widened to double; modelled exactly). -/
def JNumber.as_f64 : JNumber → Option Rat
  | .posInt n => some (n : Rat)
  | .negInt n => some (n : Rat)
  | .float q => some q

/-- Model of serde_json::Value.  Objects are association lists carrying the
map's iteration order (serde_json's default map iterates keys in sorted
order; only ordering of the produced error lists depends on it). -/
inductive Json where
  | null
  | bool (b : Bool)
  | num (n : JNumber)
  | str (s : String)
  | arr (xs : List Json)
  | obj (kvs : List (String × Json))
deriving Repr

/-- First binding of a key in an association list (serde_json maps have
unique keys, so this is map lookup). -/
def lookupKey : List (String × Json) → String → Option Json
  | [], _ => none
  | (k, v) :: rest, key => if k = key then some v else lookupKey rest key

/-- Model of serde_json::Value::get on a string index: field of an object,
none on all other value kinds. -/
def Json.get : Json → String → Option Json
  | .obj kvs, key => lookupKey kvs key
  | _, _ => none

/-- Model of serde_json::Value::as_object. -/
def Json.asObject : Json → Option (List (String × Json))
  | .obj kvs => some kvs
  | _ => none

/-- Model of serde_json::Value::as_array. -/
def Json.asArray : Json → Option (List Json)
  | .arr xs => some xs
  | _ => none

/-- Model of serde_json::Value::is_object. -/
def Json.isObject : Json → Bool
  | .obj _ => true
  | _ => false

/-- Model of the cel crate's Value type (the variants the pipeline
produces or inspects).  Timestamps carry an abstract instant produced by
the external chrono RFC 3339 parser; durations carry whole nanoseconds.
Maps are association lists in iteration order. -/
inductive CelValue where
  | null
  | bool (b : Bool)
  | int (i : Int)
  | uint (n : Nat)
  | float (q : Rat)
  | string (s : String)
  | timestamp (t : Int)
  | duration (nanos : Int)
  | list (xs : List CelValue)
  | map (kvs : List (String × CelValue))
deriving Repr

/-- The format hint from an OpenAPI schema property (values.rs,
SchemaFormat). -/
inductive SchemaFormat where
  | dateTime
  | duration
  | none
deriving DecidableEq, Repr

/-- SchemaFormat::from_schema: read the "format" key of a raw schema
node. -/
def SchemaFormat.from_schema (schema : Json) : SchemaFormat :=
  match schema.get "format" with
  | some (.str "date-time") => SchemaFormat.dateTime
  | some (.str "duration") => SchemaFormat.duration
  | _ => SchemaFormat.none

/-! ### Go-style duration parsing (values.rs, parse_go_duration) -/

/-- Byte index of the first character that is neither an ASCII digit nor a
dot, or 0 when every character is a digit or dot — mirroring
remaining.find(...).unwrap_or(0) in parse_go_duration (all characters up
to the found one are single-byte, so byte and character index agree). -/
def find_non_num_idx (cs : List Char) : Nat :=
  match cs.findIdx? (fun c => !(c.isDigit || c = '.')) with
  | some i => i
  | Option.none => 0

/-- Value of a list of ASCII digits read in base 10. -/
def digitsToNat (cs : List Char) : Nat :=
  cs.foldl (fun acc c => acc * 10 + (c.toNat - 48)) 0

/-- Model of str::parse::<f64> restricted to strings of digits and dots
(the only shape parse_go_duration feeds it): succeeds when there is at
least one digit and at most one dot, yielding the decimal value (exact
here; the Rust parse rounds to the nearest double, which agrees on every
input a verified claim evaluates). -/
def parse_f64_digits (cs : List Char) : Option Rat :=
  if cs.isEmpty then Option.none
  else if !cs.all (fun c => c.isDigit || c = '.') then Option.none
  else if cs.count '.' > 1 then Option.none
  else if !cs.any (fun c => c.isDigit) then Option.none
  else
    let ipart := cs.takeWhile (fun c => c ≠ '.')
    let fpart := (cs.dropWhile (fun c => c ≠ '.')).drop 1
    some ((digitsToNat ipart : Rat) + (digitsToNat fpart : Rat) / (10 : Rat) ^ fpart.length)

/-- Unit suffix lookup of parse_go_duration: two-letter units are tested
before the one-letter units, returning nanoseconds per unit and the suffix
length. -/
def match_unit (cs : List Char) : Option (Int × Nat) :=
  if cs.take 2 = ['m', 's'] then some (1000000, 2)
  else if cs.take 2 = ['u', 's'] then some (1000, 2)
  else if cs.take 2 = ['n', 's'] then some (1, 2)
  else if cs.take 1 = ['h'] then some (3600000000000, 1)
  else if cs.take 1 = ['m'] then some (60000000000, 1)
  else if cs.take 1 = ['s'] then some (1000000000, 1)
  else Option.none

/-- Wrap an integer into the i64 range (Rust release-mode wrapping
arithmetic). -/
def wrap_i64 (x : Int) : Int := (x + 2 ^ 63) % 2 ^ 64 - 2 ^ 63

/-- f64::trunc: round toward zero. -/
def rat_trunc (q : Rat) : Int := if 0 ≤ q then ⌊q⌋ else ⌈q⌉

/-- The Rust "as i64" cast on a float: saturating. -/
def sat_to_i64 (x : Int) : Int :=
  if x > i64Max then i64Max else if x < i64Min then i64Min else x

/-- The while loop of parse_go_duration: repeatedly strip a
number-then-unit segment, accumulating nanoseconds with i64 wrapping
addition of the truncated, saturated product.  Reaching the empty list
means every segment parsed (the source loop then falls through with
parsed_any = true, handled by the caller). -/
def duration_loop (cs : List Char) (total : Int) : Option Int :=
  if h : cs = [] then some total
  else
    let numEnd := find_non_num_idx cs
    if h2 : numEnd = 0 then Option.none
    else
      match parse_f64_digits (cs.take numEnd) with
      | Option.none => Option.none
      | some num =>
        let rest := cs.drop numEnd
        match match_unit rest with
        | Option.none => Option.none
        | some (unitNanos, unitLen) =>
          duration_loop (rest.drop unitLen)
            (wrap_i64 (total + sat_to_i64 (rat_trunc (num * (unitNanos : Rat)))))
termination_by cs.length
decreasing_by
  simp only [List.length_drop]
  have hlen : 0 < cs.length := List.length_pos.mpr h
  omega

/-- Model of parse_go_duration (values.rs): optional leading minus, the
literal "0", else one or more number-unit segments; the result is a total
nanosecond count (chrono::Duration::nanoseconds).  An empty remainder
before the loop means parsed_any stays false and the parse fails. -/
def parse_go_duration (input : String) : Option Int :=
  let cs0 := input.toList
  let stripped := if cs0.take 1 = ['-'] then cs0.drop 1 else cs0
  let negative := cs0.take 1 = ['-']
  if stripped = ['0'] then some 0
  else if stripped.isEmpty then Option.none
  else
    match duration_loop stripped 0 with
    | Option.none => Option.none
    | some total => some (if negative then wrap_i64 (-total) else total)

/-! ### Quantity (quantity.rs, KubeQuantity) -/

/-- Largest value of the Rust i128 type. -/
def i128Max : Int := 170141183460469231731687303715884105727

/-- Smallest value of the Rust i128 type. -/
def i128Min : Int := -170141183460469231731687303715884105728

/-- Largest value of the Rust i32 type. -/
def i32Max : Int := 2147483647

/-- Smallest value of the Rust i32 type. -/
def i32Min : Int := -2147483648

/-- Two's-complement wrap-around of release-mode i128 arithmetic. -/
def wrap_i128 (x : Int) : Int :=
  (x + 170141183460469231731687303715884105728) %
      340282366920938463463374607431768211456 -
    170141183460469231731687303715884105728

/-- Two's-complement wrap-around of release-mode i32 arithmetic. -/
def wrap_i32 (x : Int) : Int := (x + 2147483648) % 4294967296 - 2147483648

/-- A Kubernetes resource quantity, stored as mantissa times ten to the
scale (quantity.rs).  The Rust mantissa is an i128 and the scale an i32;
the fields hold their stored values and every arithmetic operation below
wraps as release-mode Rust arithmetic does. -/
structure KubeQuantity where
  mantissa : Int
  scale : Int
deriving DecidableEq, Repr

/-- The while loop of KubeQuantity::simplify: divide trailing zero digits
out of the mantissa, absorbing them into the scale with a wrapping i32
increment.  (The Rust % and / on an exactly divisible operand agree with
the Lean euclidean operators used here.) -/
def simplify_loop (m s : Int) : Int × Int :=
  if h : m ≠ 0 ∧ m % 10 = 0 then simplify_loop (m / 10) (wrap_i32 (s + 1)) else (m, s)
termination_by m.natAbs
decreasing_by
  obtain ⟨hm, hdvd⟩ := h
  have h10 : (10 : Int) ∣ m := Int.dvd_of_emod_eq_zero hdvd
  obtain ⟨k, hk⟩ := h10
  subst hk
  have hk0 : k ≠ 0 := by
    intro h0
    simp [h0] at hm
  have : (10 * k : Int) / 10 = k := by
    omega
  rw [this]
  have : (10 * k : Int).natAbs = 10 * k.natAbs := by
    simp [Int.natAbs_mul]
  rw [this]
  have : 1 ≤ k.natAbs := Int.natAbs_pos.mpr hk0
  omega

/-- KubeQuantity::simplify: zero mantissa resets the scale to zero;
otherwise trailing zero digits move from the mantissa into the scale. -/
def KubeQuantity.simplify (q : KubeQuantity) : KubeQuantity :=
  if q.mantissa = 0 then { mantissa := 0, scale := 0 }
  else
    let p := simplify_loop q.mantissa q.scale
    { mantissa := p.1, scale := p.2 }

/-- KubeQuantity::new: store and simplify. -/
def KubeQuantity.new (mantissa scale : Int) : KubeQuantity :=
  KubeQuantity.simplify { mantissa, scale }

/-- scale_mantissa (quantity.rs): rescale a mantissa from from_scale down
to to_scale by multiplying in the powers of ten.  The i32 subtraction, the
i128 power (10i128.pow wraps at each multiplication, so its stored result
is the wrap of the exact power) and the i128 multiplication all wrap; for
a positive diff the u32 cast is the identity. -/
def scale_mantissa (mantissa from_scale to_scale : Int) : Int :=
  let diff := wrap_i32 (from_scale - to_scale)
  if diff ≤ 0 then mantissa
  else wrap_i128 (mantissa * wrap_i128 (10 ^ diff.toNat))

/-- KubeQuantity::add, with the i128 addition wrapping. -/
def KubeQuantity.add (a b : KubeQuantity) : KubeQuantity :=
  let minScale := min a.scale b.scale
  KubeQuantity.new
    (wrap_i128 (scale_mantissa a.mantissa a.scale minScale +
      scale_mantissa b.mantissa b.scale minScale))
    minScale

/-- KubeQuantity::sub, with the i128 subtraction wrapping. -/
def KubeQuantity.sub (a b : KubeQuantity) : KubeQuantity :=
  let minScale := min a.scale b.scale
  KubeQuantity.new
    (wrap_i128 (scale_mantissa a.mantissa a.scale minScale -
      scale_mantissa b.mantissa b.scale minScale))
    minScale

/-- Exact rational value of a quantity: mantissa times ten to the scale. -/
def KubeQuantity.toRat (q : KubeQuantity) : Rat :=
  (q.mantissa : Rat) * (10 : Rat) ^ q.scale

/-- Canonical representation invariant maintained by simplify: a zero
value is stored as mantissa 0, scale 0; a nonzero mantissa has no trailing
zero digit. -/
def KubeQuantity.canonical (q : KubeQuantity) : Prop :=
  (q.mantissa = 0 ∧ q.scale = 0) ∨ (q.mantissa ≠ 0 ∧ ¬ (10 : Int) ∣ q.mantissa)

instance (q : KubeQuantity) : Decidable q.canonical := by
  unfold KubeQuantity.canonical
  infer_instance

/-! ### Size lemmas used for termination of the recursive walks -/

/-- Second component of an association-list member is smaller than the
list. -/
theorem sizeOf_snd_lt_of_mem {α : Type} [SizeOf α] {l : List (String × α)}
    {p : String × α} (h : p ∈ l) : sizeOf p.2 < sizeOf l := by
  have h1 := List.sizeOf_lt_of_mem h
  obtain ⟨a, b⟩ := p
  simp at h1 ⊢
  omega

/-- A value found by lookupKey is smaller than the list it came from. -/
theorem lookupKey_sizeOf {kvs : List (String × Json)} {key : String} {v : Json}
    (h : lookupKey kvs key = some v) : sizeOf v < sizeOf kvs := by
  induction kvs with
  | nil => simp [lookupKey] at h
  | cons p rest ih =>
    obtain ⟨k, w⟩ := p
    simp only [lookupKey] at h
    split at h
    · cases h
      simp
      omega
    · have := ih h
      simp
      omega

/-- A value found by Json.get is smaller than the object it came from. -/
theorem Json.get_sizeOf {j : Json} {key : String} {v : Json}
    (h : j.get key = some v) : sizeOf v < sizeOf j := by
  cases j <;> simp [Json.get] at h
  case obj kvs =>
    have := lookupKey_sizeOf h
    simp
    omega

/-- The member list extracted by asObject is smaller than the value. -/
theorem Json.asObject_sizeOf {j : Json} {kvs : List (String × Json)}
    (h : j.asObject = some kvs) : sizeOf kvs < sizeOf j := by
  cases j <;> simp [Json.asObject] at h
  case obj kvs2 =>
    subst h
    simp

/-- The member list of the object under a key is smaller than the
enclosing object. -/
theorem bind_asObject_sizeOf {schema : Json} {key : String}
    {props : List (String × Json)}
    (h : (schema.get key).bind Json.asObject = some props) : sizeOf props < sizeOf schema := by
  rcases Option.bind_eq_some.mp h with ⟨j, hget, hobj⟩
  have h1 := Json.get_sizeOf hget
  have h2 := Json.asObject_sizeOf hobj
  omega

/-- Option.filter keeps the stored value. -/
theorem option_filter_eq_some {α : Type} {o : Option α} {p : α → Bool} {a : α}
    (h : o.filter p = some a) : o = some a ∧ p a = true := by
  cases o with
  | none => simp [Option.filter] at h
  | some b =>
    simp only [Option.filter] at h
    by_cases hp : p b
    · simp [hp] at h
      subst h
      exact ⟨rfl, hp⟩
    · simp [hp] at h

/-! ### JSON to CEL value conversion (values.rs) -/

/-- convert_number (values.rs): i64 first, then u64, then f64.  The last
branch models the as_f64().unwrap() call; its panic case cannot occur on
any serde number (theorem convert_number_checked_eq) and is given an
arbitrary value here. -/
def convert_number (n : JNumber) : CelValue :=
  match n.as_i64 with
  | some i => .int i
  | Option.none =>
    match n.as_u64 with
    | some u => .uint u
    | Option.none =>
      match n.as_f64 with
      | some q => .float q
      | Option.none => .float 0

/-- convert_number with the unwrap made explicit: the panic branch of
as_f64().unwrap() is the value Option.none. -/
def convert_number_checked (n : JNumber) : Option CelValue :=
  match n.as_i64 with
  | some i => some (.int i)
  | Option.none =>
    match n.as_u64 with
    | some u => some (.uint u)
    | Option.none => n.as_f64.map CelValue.float

/-- json_to_cel (values.rs): structural conversion with no format
context. -/
def json_to_cel : Json → CelValue
  | .null => .null
  | .bool b => .bool b
  | .num n => convert_number n
  | .str s => .string s
  | .arr xs => .list (xs.attach.map (fun p => json_to_cel p.1))
  | .obj kvs => .map (kvs.attach.map (fun p => (p.1.1, json_to_cel p.1.2)))
termination_by j => sizeOf j
decreasing_by
  · have := List.sizeOf_lt_of_mem p.2
    simp
    omega
  · have := sizeOf_snd_lt_of_mem p.2
    simp
    omega

/-- Sequence a list of options (all-or-nothing). -/
def optList {α : Type} : List (Option α) → Option (List α)
  | [] => some []
  | x :: xs => x.bind (fun v => (optList xs).map (fun vs => v :: vs))

/-- json_to_cel with the panic branch of convert_number threaded through
as an explicit Option (none would mean a panic escaped). -/
def json_to_cel_checked : Json → Option CelValue
  | .null => some .null
  | .bool b => some (.bool b)
  | .num n => convert_number_checked n
  | .str s => some (.string s)
  | .arr xs =>
    (optList (xs.attach.map (fun p => json_to_cel_checked p.1))).map CelValue.list
  | .obj kvs =>
    (optList (kvs.attach.map (fun p =>
      (json_to_cel_checked p.1.2).map (fun v => (p.1.1, v))))).map CelValue.map
termination_by j => sizeOf j
decreasing_by
  · have := List.sizeOf_lt_of_mem p.2
    simp
    omega
  · have := sizeOf_snd_lt_of_mem p.2
    simp
    omega

/-- Model of the external chrono timestamp parser consumed by
convert_string_with_format (out of scope of this crate). -/
structure Chrono where
  parse_from_rfc3339 : String → Option Int

/-- convert_string_with_format (values.rs): under a DateTime or Duration
format try the respective parse, falling back to a plain string value on
failure. -/
def convert_string_with_format (ch : Chrono) (s : String) (format : SchemaFormat) : CelValue :=
  match format with
  | .dateTime =>
    match ch.parse_from_rfc3339 s with
    | some t => .timestamp t
    | Option.none => .string s
  | .duration =>
    match parse_go_duration s with
    | some d => .duration d
    | Option.none => .string s
  | .none => .string s

/-- json_to_cel_inner (values.rs), raw-schema side.  The compiled-schema
side reads a format field that the CompiledSchema struct in
src/compilation.rs does not declare (the crate as given does not compile);
it is therefore not embedded. -/
def json_to_cel_inner (ch : Chrono) (value : Json) (format : SchemaFormat)
    (raw_schema : Option Json) : CelValue :=
  match value with
  | .null => .null
  | .bool b => .bool b
  | .num n => convert_number n
  | .str s => convert_string_with_format ch s format
  | .arr xs =>
    .list (xs.attach.map (fun p =>
      match raw_schema.bind (fun rs => rs.get "items") with
      | some items_schema =>
        json_to_cel_inner ch p.1 (SchemaFormat.from_schema items_schema) (some items_schema)
      | Option.none => json_to_cel p.1))
  | .obj kvs =>
    .map (kvs.attach.map (fun p =>
      (p.1.1,
        match raw_schema with
        | some rs =>
          match (rs.get "properties").bind (fun ps => ps.get p.1.1) with
          | some prop_schema =>
            json_to_cel_inner ch p.1.2 (SchemaFormat.from_schema prop_schema) (some prop_schema)
          | Option.none =>
            match rs.get "additionalProperties" with
            | some additional =>
              if additional.isObject then
                json_to_cel_inner ch p.1.2 (SchemaFormat.from_schema additional) (some additional)
              else json_to_cel p.1.2
            | Option.none => json_to_cel p.1.2
        | Option.none => json_to_cel p.1.2)))
termination_by sizeOf value
decreasing_by
  · have := List.sizeOf_lt_of_mem p.2
    simp
    omega
  · have := sizeOf_snd_lt_of_mem p.2
    simp
    omega
  · have := sizeOf_snd_lt_of_mem p.2
    simp
    omega

/-- json_to_cel_with_schema (values.rs). -/
def json_to_cel_with_schema (ch : Chrono) (value schema : Json) : CelValue :=
  json_to_cel_inner ch value (SchemaFormat.from_schema schema) (some schema)

/-! ### The abstract CEL engine and rule compilation (compilation.rs) -/

/-- The variable environment the validator hands to the engine:
Context::default() plus register_all plus the self variable, and
optionally the oldSelf variable. -/
structure CelCtx where
  selfVar : CelValue
  oldSelfVar : Option CelValue

/-- The out-of-scope cel expression engine, at the interface the pipeline
consumes: Program::compile, references().has_variable("oldSelf"), and
Program::execute against an environment.  Parse and execution errors are
carried as strings. -/
structure CelEngine where
  Prog : Type
  compile : String → Except String Prog
  hasOldSelf : Prog → Bool
  execute : Prog → CelCtx → Except String CelValue

/-- A single x-kubernetes-validations rule (compilation.rs, Rule),
deserialized with camelCase field names and defaults. -/
structure Rule where
  rule : String
  message : Option String
  message_expression : Option String
  reason : Option String
  field_path : Option String
  optional_old_self : Option Bool
deriving DecidableEq, Repr

/-- CompilationError (compilation.rs). -/
inductive CompilationError where
  | parse (rule : String) (source : String)
  | invalidRule (e : String)
deriving DecidableEq, Repr

/-- CompilationResult (compilation.rs): a successfully compiled rule. -/
structure CompilationResult (E : CelEngine) where
  program : E.Prog
  rule : Rule
  is_transition_rule : Bool
  message_program : Option E.Prog

/-- compile_rule (compilation.rs): compile the main expression, derive
the transition flag from the referenced variables, and best-effort
compile the messageExpression (failures ignored). -/
def compile_rule (E : CelEngine) (r : Rule) : Except CompilationError (CompilationResult E) :=
  match E.compile r.rule with
  | .error e => .error (.parse r.rule e)
  | .ok program =>
    .ok { program := program
          rule := r
          is_transition_rule := E.hasOldSelf program
          message_program := r.message_expression.bind (fun expr => (E.compile expr).toOption) }

/-- serde deserialization of an optional string field: absent or null is
none, a string is some, anything else is a type error. -/
def getOptString (kvs : List (String × Json)) (key : String) : Except String (Option String) :=
  match lookupKey kvs key with
  | Option.none => .ok Option.none
  | some Json.null => .ok Option.none
  | some (.str s) => .ok (some s)
  | some _ => .error ("invalid type for field " ++ key)

/-- serde deserialization of an optional bool field. -/
def getOptBool (kvs : List (String × Json)) (key : String) : Except String (Option Bool) :=
  match lookupKey kvs key with
  | Option.none => .ok Option.none
  | some Json.null => .ok Option.none
  | some (.bool b) => .ok (some b)
  | some _ => .error ("invalid type for field " ++ key)

/-- Model of serde_json::from_value::<Rule>: requires an object with a
string field named rule; the remaining camelCase fields are optional;
unknown fields are ignored (serde default). -/
def rule_from_json : Json → Except String Rule
  | .obj kvs => do
    let r ← match lookupKey kvs "rule" with
      | some (.str s) => Except.ok s
      | some _ => Except.error "invalid type for field rule"
      | Option.none => Except.error "missing field rule"
    let message ← getOptString kvs "message"
    let messageExpression ← getOptString kvs "messageExpression"
    let reason ← getOptString kvs "reason"
    let fieldPath ← getOptString kvs "fieldPath"
    let optionalOldSelf ← getOptBool kvs "optionalOldSelf"
    Except.ok { rule := r, message := message, message_expression := messageExpression,
                reason := reason, field_path := fieldPath,
                optional_old_self := optionalOldSelf }
  | _ => Except.error "invalid type: not an object"

/-- compile_schema_validations (compilation.rs): absent or non-array
x-kubernetes-validations means no rules; each entry is deserialized and
compiled independently. -/
def compile_schema_validations (E : CelEngine) (schema : Json) :
    List (Except CompilationError (CompilationResult E)) :=
  match schema.get "x-kubernetes-validations" with
  | some (.arr rules) =>
    rules.map (fun raw =>
      match rule_from_json raw with
      | .error e => .error (CompilationError.invalidRule e)
      | .ok r => compile_rule E r)
  | _ => []

/-- CompiledSchema (compilation.rs): the pre-compiled schema tree.
Properties are an association list in the schema object's order (the Rust
HashMap iterates in arbitrary order; the claims about compiled walks are
stated up to ordering). -/
inductive CompiledSchema (E : CelEngine) where
  | mk (validations : List (Except CompilationError (CompilationResult E)))
       (properties : List (String × CompiledSchema E))
       (items : Option (CompiledSchema E))
       (additional_properties : Option (CompiledSchema E))

/-- Field accessor for CompiledSchema. -/
def CompiledSchema.validations {E : CelEngine} :
    CompiledSchema E → List (Except CompilationError (CompilationResult E))
  | .mk v _ _ _ => v

/-- Field accessor for CompiledSchema. -/
def CompiledSchema.properties {E : CelEngine} :
    CompiledSchema E → List (String × CompiledSchema E)
  | .mk _ p _ _ => p

/-- Field accessor for CompiledSchema. -/
def CompiledSchema.items {E : CelEngine} : CompiledSchema E → Option (CompiledSchema E)
  | .mk _ _ i _ => i

/-- Field accessor for CompiledSchema. -/
def CompiledSchema.additional_properties {E : CelEngine} :
    CompiledSchema E → Option (CompiledSchema E)
  | .mk _ _ _ a => a

/-- compile_schema (compilation.rs): recursively compile the rules at
every node of the schema tree. -/
def compile_schema (E : CelEngine) (schema : Json) : CompiledSchema E :=
  CompiledSchema.mk
    (compile_schema_validations E schema)
    (match h : (schema.get "properties").bind Json.asObject with
     | some props => props.attach.map (fun p => (p.1.1, compile_schema E p.1.2))
     | Option.none => [])
    (match h : schema.get "items" with
     | some s => some (compile_schema E s)
     | Option.none => Option.none)
    (match h : (schema.get "additionalProperties").filter Json.isObject with
     | some a => some (compile_schema E a)
     | Option.none => Option.none)
termination_by sizeOf schema
decreasing_by
  · have h1 := bind_asObject_sizeOf h
    have h2 := sizeOf_snd_lt_of_mem p.2
    omega
  · exact Json.get_sizeOf h
  · exact Json.get_sizeOf (option_filter_eq_some h).1

/-! ### The validator (validation.rs) -/

/-- ValidationError (validation.rs). -/
structure ValidationError where
  rule : String
  message : String
  field_path : String
  reason : Option String
deriving DecidableEq, Repr

/-- Display for ValidationError: path-prefixed unless the path is
empty. -/
def ValidationError.display (e : ValidationError) : String :=
  if e.field_path = "" then e.message else e.field_path ++ ": " ++ e.message

/-- join_path (validation.rs). -/
def join_path (base segment : String) : String :=
  if base = "" then segment else base ++ "." ++ segment

/-- join_path_index (validation.rs). -/
def join_path_index (base : String) (index : Nat) : String :=
  if base = "" then "[" ++ toString index ++ "]"
  else base ++ "[" ++ toString index ++ "]"

/-- Validator::resolve_message: a message program that executes to a
string wins; otherwise the static message; otherwise the generated
default containing the rule text. -/
def resolve_message (E : CelEngine) (cr : CompilationResult E) (ctx : CelCtx) : String :=
  match cr.message_program with
  | some msgProg =>
    match E.execute msgProg ctx with
    | .ok (.string s) => s
    | _ => cr.rule.message.getD ("failed rule: " ++ cr.rule.rule)
  | Option.none => cr.rule.message.getD ("failed rule: " ++ cr.rule.rule)

/-- Validator::evaluate_rule.  The Rust function pushes into a mutable
error vector; here the pushed errors are returned.  Note the bindings of
self and oldSelf go through the format-free json_to_cel. -/
def evaluate_rule (E : CelEngine) (cr : CompilationResult E) (value : Json)
    (old_value : Option Json) (path : String) : List ValidationError :=
  if cr.is_transition_rule ∧ old_value.isNone ∧ cr.rule.optional_old_self ≠ some true then
    []
  else
    let ctx : CelCtx :=
      { selfVar := json_to_cel value
        oldSelfVar :=
          match old_value with
          | some old => some (json_to_cel old)
          | Option.none =>
            if cr.rule.optional_old_self = some true then some CelValue.null else Option.none }
    match E.execute cr.program ctx with
    | .ok (.bool true) => []
    | .ok (.bool false) =>
      [{ rule := cr.rule.rule, message := resolve_message E cr ctx,
         field_path := path, reason := cr.rule.reason }]
    | .ok _ =>
      [{ rule := cr.rule.rule,
         message := "rule \"" ++ cr.rule.rule ++ "\" did not evaluate to bool",
         field_path := path, reason := Option.none }]
    | .error e =>
      [{ rule := cr.rule.rule, message := "rule evaluation error: " ++ e,
         field_path := path, reason := Option.none }]

/-- Validator::evaluate_compiled_results: each outcome contributes its
own errors; compile-time errors become entries without execution. -/
def evaluate_compiled_results (E : CelEngine)
    (results : List (Except CompilationError (CompilationResult E)))
    (value : Json) (old_value : Option Json) (path : String) : List ValidationError :=
  results.flatMap (fun result =>
    match result with
    | .ok cr => evaluate_rule E cr value old_value path
    | .error (.parse rule source) =>
      [{ rule := rule, message := "failed to compile rule \"" ++ rule ++ "\": " ++ source,
         field_path := path, reason := Option.none }]
    | .error (.invalidRule e) =>
      [{ rule := "", message := "invalid rule definition: " ++ e,
         field_path := path, reason := Option.none }])

/-- Validator::evaluate_validations: compile this node's rules and
evaluate them. -/
def evaluate_validations (E : CelEngine) (schema value : Json) (old_value : Option Json)
    (path : String) : List ValidationError :=
  evaluate_compiled_results E (compile_schema_validations E schema) value old_value path

/-- Membership test on association-list keys (models
HashMap::contains_key). -/
def contains_key {α : Type} (l : List (String × α)) (k : String) : Bool :=
  l.any (fun p => p.1 = k)

/-- Validator::walk_schema: evaluate this node's rules, then recurse into
declared properties present in the object, array items by position, and
additional properties not covered by a declared property. -/
def walk_schema (E : CelEngine) (schema value : Json) (old_value : Option Json)
    (path : String) : List ValidationError :=
  evaluate_validations E schema value old_value path
  ++ (match h : (schema.get "properties").bind Json.asObject, value.asObject with
      | some props, some objkvs =>
        props.attach.flatMap (fun p =>
          match lookupKey objkvs p.1.1 with
          | some child_value =>
            walk_schema E p.1.2 child_value (old_value.bind (fun o => o.get p.1.1))
              (join_path path p.1.1)
          | Option.none => [])
      | _, _ => [])
  ++ (match h : schema.get "items", value.asArray with
      | some items_schema, some arr =>
        arr.enum.flatMap (fun q =>
          walk_schema E items_schema q.2
            ((old_value.bind Json.asArray).bind (fun a => a.get? q.1))
            (join_path_index path q.1))
      | _, _ => [])
  ++ (match h : (schema.get "additionalProperties").filter Json.isObject, value.asObject with
      | some additional_schema, some objkvs =>
        let known : List String :=
          match (schema.get "properties").bind Json.asObject with
          | some props => props.map Prod.fst
          | Option.none => []
        objkvs.flatMap (fun kv =>
          if known.contains kv.1 then []
          else
            walk_schema E additional_schema kv.2 (old_value.bind (fun o => o.get kv.1))
              (join_path path kv.1))
      | _, _ => [])
termination_by sizeOf schema
decreasing_by
  · have h1 := bind_asObject_sizeOf h
    have h2 := sizeOf_snd_lt_of_mem p.2
    omega
  · exact Json.get_sizeOf h
  · exact Json.get_sizeOf (option_filter_eq_some h).1

/-- A property subtree of a compiled node is smaller than the node. -/
theorem CompiledSchema.properties_sizeOf {E : CelEngine} {c : CompiledSchema E}
    {p : String × CompiledSchema E} (h : p ∈ c.properties) : sizeOf p.2 < sizeOf c := by
  cases c with
  | mk v pr i a =>
    have h1 : sizeOf p.2 < sizeOf pr := sizeOf_snd_lt_of_mem h
    simp
    omega

/-- The items subtree of a compiled node is smaller than the node. -/
theorem CompiledSchema.items_sizeOf {E : CelEngine} {c ic : CompiledSchema E}
    (h : c.items = some ic) : sizeOf ic < sizeOf c := by
  cases c with
  | mk v pr i a =>
    simp [CompiledSchema.items] at h
    subst h
    simp
    omega

/-- The additional-properties subtree of a compiled node is smaller than
the node. -/
theorem CompiledSchema.additional_sizeOf {E : CelEngine} {c ac : CompiledSchema E}
    (h : c.additional_properties = some ac) : sizeOf ac < sizeOf c := by
  cases c with
  | mk v pr i a =>
    simp [CompiledSchema.additional_properties] at h
    subst h
    simp
    omega

/-- Validator::walk_compiled: the same walk over the pre-compiled tree. -/
def walk_compiled (E : CelEngine) (c : CompiledSchema E) (value : Json)
    (old_value : Option Json) (path : String) : List ValidationError :=
  evaluate_compiled_results E c.validations value old_value path
  ++ (match value.asObject with
      | some objkvs =>
        c.properties.attach.flatMap (fun p =>
          match lookupKey objkvs p.1.1 with
          | some child_value =>
            walk_compiled E p.1.2 child_value (old_value.bind (fun o => o.get p.1.1))
              (join_path path p.1.1)
          | Option.none => [])
      | Option.none => [])
  ++ (match h : c.items, value.asArray with
      | some items_compiled, some arr =>
        arr.enum.flatMap (fun q =>
          walk_compiled E items_compiled q.2
            ((old_value.bind Json.asArray).bind (fun a => a.get? q.1))
            (join_path_index path q.1))
      | _, _ => [])
  ++ (match h : c.additional_properties, value.asObject with
      | some additional_compiled, some objkvs =>
        objkvs.flatMap (fun kv =>
          if contains_key c.properties kv.1 then []
          else
            walk_compiled E additional_compiled kv.2 (old_value.bind (fun o => o.get kv.1))
              (join_path path kv.1))
      | _, _ => [])
termination_by sizeOf c
decreasing_by
  · exact CompiledSchema.properties_sizeOf p.2
  · exact CompiledSchema.items_sizeOf h
  · exact CompiledSchema.additional_sizeOf h

/-- Validator::validate / the free function validate (validation.rs):
walk from the root with the empty path. -/
def validate (E : CelEngine) (schema object : Json) (old_object : Option Json) :
    List ValidationError :=
  walk_schema E schema object old_object ""

/-- Validator::validate_compiled / the free function validate_compiled
(validation.rs). -/
def validate_compiled (E : CelEngine) (compiled : CompiledSchema E) (object : Json)
    (old_object : Option Json) : List ValidationError :=
  walk_compiled E compiled object old_object ""

/-! ### A small concrete engine used to exercise the pipeline

The cel crate is out of scope; claims about the pipeline are settled for
every engine, and the concrete examples demanded by the claims are run on
this small instantiation covering the handful of expressions they use. -/

/-- Programs of the concrete test engine. -/
inductive TestProg where
  | geZero
  | geOldSelf
  | msgConst
  | isNullOld
deriving DecidableEq, Repr

/-- Compilation for the test engine: the four known expression texts
compile, everything else is a parse error. -/
def testCompile : String → Except String TestProg
  | "self >= 0" => .ok .geZero
  | "self >= oldSelf" => .ok .geOldSelf
  | "msg()" => .ok .msgConst
  | "oldSelf == null" => .ok .isNullOld
  | _ => .error "parse error"

/-- Referenced-variable check for the test engine. -/
def testHasOldSelf : TestProg → Bool
  | .geOldSelf => true
  | .isNullOld => true
  | _ => false

/-- Execution for the test engine. -/
def testExecute : TestProg → CelCtx → Except String CelValue
  | .geZero, ctx =>
    match ctx.selfVar with
    | .int i => .ok (.bool (0 ≤ i))
    | _ => .error "no such overload"
  | .geOldSelf, ctx =>
    match ctx.selfVar, ctx.oldSelfVar with
    | .int a, some (.int b) => .ok (.bool (b ≤ a))
    | _, _ => .error "no such overload"
  | .msgConst, _ => .ok (.string "dynamic message")
  | .isNullOld, ctx =>
    match ctx.oldSelfVar with
    | some .null => .ok (.bool true)
    | _ => .ok (.bool false)

/-- The concrete test engine. -/
def testEngine : CelEngine :=
  { Prog := TestProg, compile := testCompile, hasOldSelf := testHasOldSelf,
    execute := testExecute }

/-- A compiled transition rule (references oldSelf, no optionalOldSelf). -/
def crGeOldSelf : CompilationResult testEngine :=
  { program := TestProg.geOldSelf
    rule := { rule := "self >= oldSelf", message := some "cannot scale down",
              message_expression := Option.none, reason := Option.none,
              field_path := Option.none, optional_old_self := Option.none }
    is_transition_rule := true
    message_program := Option.none }

/-- A compiled transition rule with optionalOldSelf set. -/
def crOptOldSelf : CompilationResult testEngine :=
  { program := TestProg.isNullOld
    rule := { rule := "oldSelf == null", message := Option.none,
              message_expression := Option.none, reason := Option.none,
              field_path := Option.none, optional_old_self := some true }
    is_transition_rule := true
    message_program := Option.none }

/-- A compiled rule with a dynamic message program. -/
def crMsgDyn : CompilationResult testEngine :=
  { program := TestProg.geZero
    rule := { rule := "self >= 0", message := some "static fallback",
              message_expression := some "msg()", reason := Option.none,
              field_path := Option.none, optional_old_self := Option.none }
    is_transition_rule := false
    message_program := some TestProg.msgConst }

/-- Leaf schema of the spec.replicas example: an integer with one rule. -/
def schemaC9_replicas : Json :=
  Json.obj [("type", Json.str "integer"),
            ("x-kubernetes-validations", Json.arr
              [Json.obj [("rule", Json.str "self >= 0"),
                         ("message", Json.str "must be non-negative")]])]

/-- The spec node of the spec.replicas example. -/
def schemaC9_spec : Json :=
  Json.obj [("type", Json.str "object"),
            ("properties", Json.obj [("replicas", schemaC9_replicas)])]

/-- The root schema of the spec.replicas example. -/
def schemaC9 : Json :=
  Json.obj [("type", Json.str "object"),
            ("properties", Json.obj [("spec", schemaC9_spec)])]

/-- The object of the spec.replicas example. -/
def objC9 : Json :=
  Json.obj [("spec", Json.obj [("replicas", Json.num (.negInt (-1))) ])]

/-- Element schema of the array example: one transition rule. -/
def schemaC4_item : Json :=
  Json.obj [("x-kubernetes-validations", Json.arr
    [Json.obj [("rule", Json.str "self >= oldSelf")]])]

/-- The items node of the array example. -/
def schemaC4_items : Json := Json.obj [("items", schemaC4_item)]

/-- The root schema of the array example. -/
def schemaC4 : Json := Json.obj [("properties", Json.obj [("items", schemaC4_items)])]

/-- The new object of the array example. -/
def objC4 : Json :=
  Json.obj [("items", Json.arr
    [Json.num (.posInt 5), Json.num (.posInt 3), Json.num (.posInt 10)])]

/-- The prior object of the array example. -/
def oldC4 : Json :=
  Json.obj [("items", Json.arr [Json.num (.posInt 3), Json.num (.posInt 4)])]

/-! ### Equation lemmas with List.attach eliminated -/

/-- Eliminate attach under map. -/
theorem attach_map_gen {α β : Type} (l : List α) (f : α → β) :
    l.attach.map (fun p => f p.1) = l.map f := by
  simp

/-- Eliminate attach under flatMap. -/
theorem attach_flatMap_gen {α β : Type} (l : List α) (f : α → List β) :
    l.attach.flatMap (fun p => f p.1) = l.flatMap f := by
  simp

@[simp] theorem json_to_cel_null : json_to_cel .null = .null := by
  simp [json_to_cel]

@[simp] theorem json_to_cel_bool (b : Bool) : json_to_cel (.bool b) = .bool b := by
  simp [json_to_cel]

@[simp] theorem json_to_cel_num (n : JNumber) : json_to_cel (.num n) = convert_number n := by
  simp [json_to_cel]

@[simp] theorem json_to_cel_str (s : String) : json_to_cel (.str s) = .string s := by
  simp [json_to_cel]

@[simp] theorem json_to_cel_arr (xs : List Json) :
    json_to_cel (.arr xs) = .list (xs.map json_to_cel) := by
  simp only [json_to_cel]
  congr 1
  exact attach_map_gen xs json_to_cel

@[simp] theorem json_to_cel_obj (kvs : List (String × Json)) :
    json_to_cel (.obj kvs) = .map (kvs.map (fun p => (p.1, json_to_cel p.2))) := by
  simp only [json_to_cel]
  congr 1
  exact attach_map_gen kvs (fun q => (q.1, json_to_cel q.2))

/-- compile_schema with attach eliminated. -/
theorem compile_schema_eq (E : CelEngine) (schema : Json) :
    compile_schema E schema = CompiledSchema.mk
      (compile_schema_validations E schema)
      (match (schema.get "properties").bind Json.asObject with
       | some props => props.map (fun p => (p.1, compile_schema E p.2))
       | Option.none => [])
      (match schema.get "items" with
       | some s => some (compile_schema E s)
       | Option.none => Option.none)
      (match (schema.get "additionalProperties").filter Json.isObject with
       | some a => some (compile_schema E a)
       | Option.none => Option.none) := by
  rw [compile_schema]
  congr 1
  · split
    · rename_i props h
      rw [h]
      exact attach_map_gen props (fun q => (q.1, compile_schema E q.2))
    · rename_i h
      rw [h]
  · split <;> rename_i h <;> rw [h]
  · split <;> rename_i h <;> rw [h]

/-- walk_schema with attach eliminated. -/
theorem walk_schema_eq (E : CelEngine) (schema value : Json) (old_value : Option Json)
    (path : String) :
    walk_schema E schema value old_value path =
    evaluate_validations E schema value old_value path
    ++ (match (schema.get "properties").bind Json.asObject, value.asObject with
        | some props, some objkvs =>
          props.flatMap (fun p =>
            match lookupKey objkvs p.1 with
            | some child_value =>
              walk_schema E p.2 child_value (old_value.bind (fun o => o.get p.1))
                (join_path path p.1)
            | Option.none => [])
        | _, _ => [])
    ++ (match h : schema.get "items", value.asArray with
        | some items_schema, some arr =>
          arr.enum.flatMap (fun q =>
            walk_schema E items_schema q.2
              ((old_value.bind Json.asArray).bind (fun a => a.get? q.1))
              (join_path_index path q.1))
        | _, _ => [])
    ++ (match h : (schema.get "additionalProperties").filter Json.isObject, value.asObject with
        | some additional_schema, some objkvs =>
          let known : List String :=
            match (schema.get "properties").bind Json.asObject with
            | some props => props.map Prod.fst
            | Option.none => []
          objkvs.flatMap (fun kv =>
            if known.contains kv.1 then []
            else
              walk_schema E additional_schema kv.2 (old_value.bind (fun o => o.get kv.1))
                (join_path path kv.1))
        | _, _ => []) := by
  rw [walk_schema]
  congr 1
  congr 1
  congr 1
  split
  · rename_i props objkvs h h2
    rw [h, h2]
    exact attach_flatMap_gen props (fun q =>
      match lookupKey objkvs q.1 with
      | some child_value =>
        walk_schema E q.2 child_value (old_value.bind (fun o => o.get q.1))
          (join_path path q.1)
      | Option.none => [])
  · rename_i hno
    split
    · rename_i props2 objkvs2 h1 h2
      exact (hno props2 objkvs2 h1 h2).elim
    · rfl

/-- walk_compiled with attach eliminated. -/
theorem walk_compiled_eq (E : CelEngine) (c : CompiledSchema E)
    (value : Json) (old_value : Option Json) (path : String) :
    walk_compiled E c value old_value path =
    evaluate_compiled_results E c.validations value old_value path
    ++ (match value.asObject with
        | some objkvs =>
          c.properties.flatMap (fun p =>
            match lookupKey objkvs p.1 with
            | some child_value =>
              walk_compiled E p.2 child_value (old_value.bind (fun o => o.get p.1))
                (join_path path p.1)
            | Option.none => [])
        | Option.none => [])
    ++ (match h : c.items, value.asArray with
        | some items_compiled, some arr =>
          arr.enum.flatMap (fun q =>
            walk_compiled E items_compiled q.2
              ((old_value.bind Json.asArray).bind (fun a => a.get? q.1))
              (join_path_index path q.1))
        | _, _ => [])
    ++ (match h : c.additional_properties, value.asObject with
        | some additional_compiled, some objkvs =>
          objkvs.flatMap (fun kv =>
            if contains_key c.properties kv.1 then []
            else
              walk_compiled E additional_compiled kv.2 (old_value.bind (fun o => o.get kv.1))
                (join_path path kv.1))
        | _, _ => []) := by
  rw [walk_compiled]
  congr 1
  congr 1
  congr 1
  split
  · rename_i objkvs h
    exact attach_flatMap_gen c.properties (fun q =>
      match lookupKey objkvs q.1 with
      | some child_value =>
        walk_compiled E q.2 child_value (old_value.bind (fun o => o.get q.1))
          (join_path path q.1)
      | Option.none => [])
  · rfl

/-! ### The duration grammar of claim C7, formalized from the claim's words -/

/-- Characters allowed inside the numeric part of a duration segment. -/
def is_num_char (c : Char) : Bool := c.isDigit || c = '.'

/-- The claim's number shape: nonempty, digits and dots only, at most one
dot, at least one digit (exactly the domain on which the f64 parse of a
digit-and-dot string succeeds). -/
def valid_num (cs : List Char) : Bool :=
  !cs.isEmpty && cs.all is_num_char && decide (cs.count '.' ≤ 1) && cs.any (fun c => c.isDigit)

/-- The claim's units. -/
def valid_unit (cs : List Char) : Bool :=
  cs = ['h'] || cs = ['m'] || cs = ['s'] ||
  cs = ['m', 's'] || cs = ['u', 's'] || cs = ['n', 's']

/-- One or more number-unit segments, concatenated with no separator
(the claim's segment grammar). -/
inductive Segs : List Char → Prop where
  | one (num u : List Char) : valid_num num = true → valid_unit u = true → Segs (num ++ u)
  | cons (num u rest : List Char) : valid_num num = true → valid_unit u = true →
      Segs rest → Segs (num ++ u ++ rest)

/-- The claim's duration grammar: optional leading minus, then either the
literal 0 or one or more segments. -/
def go_duration_grammar (input : String) : Prop :=
  (if input.toList.take 1 = ['-'] then input.toList.drop 1 else input.toList) = ['0'] ∨
  Segs (if input.toList.take 1 = ['-'] then input.toList.drop 1 else input.toList)

/-- The scan of parse_go_duration stops right after a block of number
characters when the next character is not one. -/
theorem findIdx?_numchars (num : List Char) (u : Char) (tail : List Char)
    (hnum : ∀ c ∈ num, is_num_char c = true) (hu : is_num_char u = false) :
    ∀ i, (num ++ u :: tail).findIdx? (fun c => !(c.isDigit || c = '.')) i =
      some (i + num.length) := by
  induction num with
  | nil =>
    intro i
    have hcond : (!(u.isDigit || u = '.')) = true := by
      simp [is_num_char] at hu
      simp [hu]
    simp [List.findIdx?, hcond]
  | cons c rest ih =>
    intro i
    have hc : is_num_char c = true := hnum c (by simp)
    have hc2 : (!(c.isDigit || c = '.')) = false := by
      simp [is_num_char] at hc
      rcases hc with h | h <;> simp [h]
    simp only [List.cons_append, List.findIdx?, hc2, Bool.false_eq_true, if_false,
      List.append_eq]
    rw [ih (fun d hd => hnum d (by simp [hd])) (i + 1)]
    simp
    omega

/-- find_non_num_idx on a segment returns the length of its numeric
part. -/
theorem find_non_num_idx_append (num : List Char) (u : Char) (tail : List Char)
    (hnum : ∀ c ∈ num, is_num_char c = true) (hu : is_num_char u = false) :
    find_non_num_idx (num ++ u :: tail) = num.length := by
  unfold find_non_num_idx
  rw [findIdx?_numchars num u tail hnum hu 0]
  simp

/-- The modelled f64 parse succeeds exactly on the claim's number
shape. -/
theorem parse_f64_digits_isSome (cs : List Char) :
    (parse_f64_digits cs).isSome = valid_num cs := by
  unfold parse_f64_digits valid_num
  split_ifs with h1 h2 h3 <;> simp_all [is_num_char]
  intro x hx
  by_cases hd : x.isDigit = true
  · exact Or.inl hd
  · exact Or.inr (h2 x hx (by simpa using hd))

/-- Every unit begins with a character that is not a number character. -/
theorem valid_unit_head {u : List Char} (hu : valid_unit u = true) :
    ∃ c tail, u = c :: tail ∧ is_num_char c = false := by
  unfold valid_unit at hu
  simp only [Bool.or_eq_true, decide_eq_true_eq] at hu
  rcases hu with ((((h | h) | h) | h) | h) | h <;> subst h <;>
    exact ⟨_, _, rfl, by decide⟩

/-- A nonempty valid number starts with a number character. -/
theorem valid_num_head {num : List Char} (hnum : valid_num num = true) :
    ∃ c tail, num = c :: tail ∧ is_num_char c = true := by
  cases num with
  | nil => simp [valid_num] at hnum
  | cons c tail =>
    refine ⟨c, tail, rfl, ?_⟩
    unfold valid_num at hnum
    simp only [Bool.and_eq_true, List.all_cons] at hnum
    tauto

/-- A grammar segment list is nonempty and starts with a number
character. -/
theorem Segs.head_numchar {cs : List Char} (h : Segs cs) :
    ∃ c tail, cs = c :: tail ∧ is_num_char c = true := by
  cases h with
  | one num u hnum hu =>
    obtain ⟨c, tail, rfl, hc⟩ := valid_num_head hnum
    exact ⟨c, tail ++ u, by simp, hc⟩
  | cons num u rest hnum hu hrest =>
    obtain ⟨c, tail, rfl, hc⟩ := valid_num_head hnum
    exact ⟨c, tail ++ u ++ rest, by simp, hc⟩

/-- match_unit consumes exactly a valid unit when what follows is either
nothing or a number character (longest match cannot extend). -/
theorem match_unit_of_valid {u : List Char} (hu : valid_unit u = true)
    (rest : List Char)
    (hrest : rest = [] ∨ ∃ c tail, rest = c :: tail ∧ is_num_char c = true) :
    ∃ un, match_unit (u ++ rest) = some (un, u.length) := by
  unfold valid_unit at hu
  simp only [Bool.or_eq_true, decide_eq_true_eq] at hu
  have hc : rest = [] ∨ ∃ c tail, rest = c :: tail ∧ c ≠ 's' := by
    rcases hrest with h | ⟨c, tail, rfl, hc⟩
    · exact Or.inl h
    · refine Or.inr ⟨c, tail, rfl, ?_⟩
      intro hcs
      subst hcs
      simp [is_num_char] at hc
  rcases hu with ((((h | h) | h) | h) | h) | h <;> subst h <;>
    rcases hc with rfl | ⟨c, tail, rfl, hc2⟩ <;>
    simp_all [match_unit]

/-- A successful match_unit consumed a valid unit prefix. -/
theorem match_unit_spec {rest : List Char} {un : Int} {len : Nat}
    (h : match_unit rest = some (un, len)) :
    valid_unit (rest.take len) = true ∧ len ≤ rest.length := by
  unfold match_unit at h
  split_ifs at h with h1 h2 h3 h4 h5 h6 <;>
    simp only [Option.some.injEq, Prod.mk.injEq] at h <;>
    obtain ⟨h_1, rfl⟩ := h
  · refine ⟨by simp [valid_unit, h1], ?_⟩
    have := congrArg List.length h1
    simp at this
    omega
  · refine ⟨by simp [valid_unit, h2], ?_⟩
    have := congrArg List.length h2
    simp at this
    omega
  · refine ⟨by simp [valid_unit, h3], ?_⟩
    have := congrArg List.length h3
    simp at this
    omega
  · refine ⟨by simp [valid_unit, h4], ?_⟩
    have := congrArg List.length h4
    simp at this
    omega
  · refine ⟨by simp [valid_unit, h5], ?_⟩
    have := congrArg List.length h5
    simp at this
    omega
  · refine ⟨by simp [valid_unit, h6], ?_⟩
    have := congrArg List.length h6
    simp at this
    omega

/-- All characters of a valid number are number characters. -/
theorem valid_num_all {num : List Char} (hnum : valid_num num = true) :
    ∀ c ∈ num, is_num_char c = true := by
  unfold valid_num at hnum
  simp only [Bool.and_eq_true, List.all_eq_true] at hnum
  tauto

/-- The loop of parse_go_duration succeeds on every list of grammar
segments. -/
theorem duration_loop_isSome_of_segs {cs : List Char} (h : Segs cs) :
    ∀ total, (duration_loop cs total).isSome = true := by
  induction h with
  | one num u hnum hu =>
    intro total
    obtain ⟨c, utail, huc, hc⟩ := valid_unit_head hu
    obtain ⟨d, ntail, hnd, hd⟩ := valid_num_head hnum
    have hne : num ++ u ≠ [] := by subst hnd; simp
    have hidx : find_non_num_idx (num ++ u) = num.length := by
      rw [huc]
      exact find_non_num_idx_append num c utail (valid_num_all hnum) hc
    have hlen0 : ¬ num.length = 0 := by subst hnd; simp
    have hparse : (parse_f64_digits num).isSome = true := by
      rw [parse_f64_digits_isSome]; exact hnum
    obtain ⟨q, hq⟩ := Option.isSome_iff_exists.mp hparse
    obtain ⟨un, hun⟩ := match_unit_of_valid hu [] (Or.inl rfl)
    rw [List.append_nil] at hun
    rw [duration_loop]
    simp only [dif_neg hne, hidx, dif_neg hlen0, List.take_left, List.drop_left, hq, hun,
      List.drop_length]
    rw [duration_loop]
    simp
  | cons num u rest hnum hu hrest ih =>
    intro total
    obtain ⟨c, utail, huc, hc⟩ := valid_unit_head hu
    obtain ⟨d, ntail, hnd, hd⟩ := valid_num_head hnum
    have hassoc : num ++ u ++ rest = num ++ (u ++ rest) := List.append_assoc num u rest
    have hne : num ++ u ++ rest ≠ [] := by subst hnd; simp
    have hidx : find_non_num_idx (num ++ u ++ rest) = num.length := by
      rw [hassoc, huc]
      exact find_non_num_idx_append num c (utail ++ rest) (valid_num_all hnum) hc
    have hlen0 : ¬ num.length = 0 := by subst hnd; simp
    have hparse : (parse_f64_digits num).isSome = true := by
      rw [parse_f64_digits_isSome]; exact hnum
    obtain ⟨q, hq⟩ := Option.isSome_iff_exists.mp hparse
    obtain ⟨un, hun⟩ :=
      match_unit_of_valid hu rest (Or.inr (by
        obtain ⟨e, etail, he, hce⟩ := Segs.head_numchar hrest
        exact ⟨e, etail, he, hce⟩))
    have htake : (num ++ u ++ rest).take num.length = num := by
      rw [hassoc]; exact List.take_left num (u ++ rest)
    have hdrop : (num ++ u ++ rest).drop num.length = u ++ rest := by
      rw [hassoc]; exact List.drop_left num (u ++ rest)
    have hdrop2 : (u ++ rest).drop u.length = rest := List.drop_left u rest
    rw [duration_loop]
    simp only [dif_neg hne, hidx, dif_neg hlen0, htake, hq, hdrop, hun, hdrop2]
    exact ih _

/-- Conversely, a successful loop run decomposes the input into grammar
segments. -/
theorem segs_of_duration_loop :
    ∀ n (cs : List Char), cs.length ≤ n → cs ≠ [] →
      ∀ total, (duration_loop cs total).isSome = true → Segs cs := by
  intro n
  induction n with
  | zero =>
    intro cs hlen hne
    cases cs with
    | nil => exact absurd rfl hne
    | cons c tail => simp at hlen
  | succ n ih =>
    intro cs hlen hne total hsome
    rw [duration_loop] at hsome
    simp only [dif_neg hne] at hsome
    by_cases hz : find_non_num_idx cs = 0
    · simp [hz] at hsome
    · simp only [dif_neg hz] at hsome
      rcases hp : parse_f64_digits (cs.take (find_non_num_idx cs)) with _ | q
      · rw [hp] at hsome; simp at hsome
      · rw [hp] at hsome
        rcases hm : match_unit (cs.drop (find_non_num_idx cs)) with _ | ⟨un, len⟩
        · rw [hm] at hsome; simp at hsome
        · rw [hm] at hsome
          have hsome2 : (duration_loop ((cs.drop (find_non_num_idx cs)).drop len)
              (wrap_i64 (total + sat_to_i64 (rat_trunc (q * (un : Rat)))))).isSome = true := by
            simpa using hsome
          have hvn : valid_num (cs.take (find_non_num_idx cs)) = true := by
            rw [← parse_f64_digits_isSome, hp]; rfl
          obtain ⟨hvu, hlenle⟩ := match_unit_spec hm
          have hsplit1 : cs = cs.take (find_non_num_idx cs) ++ cs.drop (find_non_num_idx cs) :=
            (List.take_append_drop _ _).symm
          have hsplit2 : cs.drop (find_non_num_idx cs) =
              (cs.drop (find_non_num_idx cs)).take len ++
              (cs.drop (find_non_num_idx cs)).drop len :=
            (List.take_append_drop _ _).symm
          rcases hrest : (cs.drop (find_non_num_idx cs)).drop len with _ | ⟨e, etail⟩
          · have hdec : cs = cs.take (find_non_num_idx cs) ++
                (cs.drop (find_non_num_idx cs)).take len := by
              conv_lhs => rw [hsplit1]
              congr 1
              conv_lhs => rw [hsplit2]
              rw [hrest, List.append_nil]
            rw [hdec]
            exact Segs.one _ _ hvn hvu
          · have hlt : (e :: etail).length ≤ n := by
              have hd1 : (cs.drop (find_non_num_idx cs)).length =
                  cs.length - find_non_num_idx cs := by simp
              have hd2 : ((cs.drop (find_non_num_idx cs)).drop len).length =
                  (cs.drop (find_non_num_idx cs)).length - len := by
                simp
                omega
              have hd3 := congrArg List.length hrest
              simp only [List.length_cons] at hd3
              simp only [List.length_cons]
              omega
            have hsegs : Segs (e :: etail) := by
              apply ih (e :: etail) hlt (by simp) _ (by rw [← hrest]; exact hsome2)
            have hdec : cs = cs.take (find_non_num_idx cs) ++
                ((cs.drop (find_non_num_idx cs)).take len ++ (e :: etail)) := by
              conv_lhs => rw [hsplit1]
              congr 1
              conv_lhs => rw [hsplit2]
              rw [hrest]
            rw [hdec, ← List.append_assoc]
            exact Segs.cons _ _ _ hvn hvu hsegs

/-- The empty list is not a segment list. -/
theorem Segs_nil_false (h : Segs ([] : List Char)) : False := by
  obtain ⟨c, tail, habs, _⟩ := Segs.head_numchar h
  simp at habs

/-- parse_go_duration succeeds exactly on the claim's grammar. -/
theorem parse_go_duration_isSome_iff (s : String) :
    (parse_go_duration s).isSome = true ↔ go_duration_grammar s := by
  simp only [parse_go_duration, go_duration_grammar]
  generalize (if s.toList.take 1 = ['-'] then s.toList.drop 1 else s.toList) = cs
  by_cases h0 : cs = ['0']
  · simp [h0]
  · simp only [if_neg h0]
    by_cases hemp : cs.isEmpty
    · have hnil : cs = [] := by simpa using hemp
      subst hnil
      simp only [hemp]
      constructor
      · intro h
        simp at h
      · rintro (h | h)
        · exact absurd h h0
        · exact (Segs_nil_false h).elim
    · have hne : cs ≠ [] := by
        intro h
        subst h
        simp at hemp
      have hef : cs.isEmpty = false := by
        cases cs with
        | nil => exact absurd rfl hne
        | cons a l => rfl
      simp only [hef, Bool.false_eq_true, if_false]
      rcases hdl : duration_loop cs 0 with _ | tot
      · simp only [hdl]
        constructor
        · intro h
          simp at h
        · rintro (h | h)
          · exact absurd h h0
          · have hs := duration_loop_isSome_of_segs h 0
            rw [hdl] at hs
            simp at hs
      · simp only [hdl]
        constructor
        · intro _
          exact Or.inr (segs_of_duration_loop cs.length cs le_rfl hne 0 (by rw [hdl]; rfl))
        · intro _
          simp

/-- Claim C7: the Go-style duration parser accepts an optional leading
minus followed by one or more number-unit segments with units h, m, s,
ms, us, ns (two-letter units matched before one-letter units),
accumulating a total nanosecond count, and accepts the literal 0 as zero;
it fails on any unrecognized unit, missing digits, or trailing unparsed
text.  In particular 1h30m is exactly 1 hour 30 minutes, -30s is negative
30 seconds, 0 is zero, and abc, the empty string and h all fail. -/
theorem claim_C7 :
    (∀ s : String, (parse_go_duration s).isSome = true ↔ go_duration_grammar s) ∧
    parse_go_duration "1h30m" = some 5400000000000 ∧
    parse_go_duration "-30s" = some (-30000000000) ∧
    parse_go_duration "0" = some 0 ∧
    parse_go_duration "1ms" = some 1000000 ∧
    parse_go_duration "abc" = Option.none ∧
    parse_go_duration "" = Option.none ∧
    parse_go_duration "h" = Option.none := by
  refine ⟨parse_go_duration_isSome_iff, ?_, ?_, ?_, ?_, ?_, ?_, ?_⟩ <;>
    simp +decide [parse_go_duration, duration_loop, find_non_num_idx, parse_f64_digits,
      match_unit, wrap_i64, rat_trunc, sat_to_i64, i64Max, i64Min, digitsToNat] <;>
    norm_num

/-! ### Quantity lemmas (claim C8) -/

/-- The simplify loop keeps the mantissa nonzero, removes every factor of
ten, preserves the represented value, and never lowers the scale. -/
theorem simplify_loop_mantissa : ∀ (n : Nat) (m s : Int), m.natAbs ≤ n → m ≠ 0 →
    (simplify_loop m s).1 ≠ 0 ∧ ¬ (10 : Int) ∣ (simplify_loop m s).1 := by
  intro n
  induction n with
  | zero =>
    intro m s hle hm
    exact absurd (Int.natAbs_eq_zero.mp (Nat.le_zero.mp hle)) hm
  | succ n ih =>
    intro m s hle hm
    rw [simplify_loop]
    by_cases h : m ≠ 0 ∧ m % 10 = 0
    · simp only [dif_pos h]
      obtain ⟨k, hk⟩ := Int.dvd_of_emod_eq_zero h.2
      have hk0 : k ≠ 0 := by
        rintro rfl
        simp at hk
        exact hm hk
      have hdiv : m / 10 = k := by
        rw [hk]
        exact Int.mul_ediv_cancel_left k (by norm_num)
      have hka : 1 ≤ k.natAbs := Int.natAbs_pos.mpr hk0
      have hma : m.natAbs = 10 * k.natAbs := by
        rw [hk, Int.natAbs_mul]
        rfl
      have hna : (m / 10).natAbs ≤ n := by
        rw [hdiv]
        omega
      exact ih (m / 10) (wrap_i32 (s + 1)) hna (by rw [hdiv]; exact hk0)
    · simp only [dif_neg h]
      have hmod : ¬ m % 10 = 0 := fun hc => h ⟨hm, hc⟩
      exact ⟨hm, fun hdvd => hmod (Int.emod_eq_zero_of_dvd hdvd)⟩

/-- The simplify loop is value-preserving as long as the scale increments
stay inside the i32 range: the headroom hypothesis gives one unit of room
per removable factor of ten. -/
theorem simplify_loop_val : ∀ (n : Nat) (m s : Int), m.natAbs ≤ n → m ≠ 0 →
    i32Min ≤ s → (∀ j : Nat, (10 : Int) ^ j ∣ m → s + j ≤ i32Max) →
    ((simplify_loop m s).1 : Rat) * (10 : Rat) ^ (simplify_loop m s).2 =
      (m : Rat) * (10 : Rat) ^ s := by
  intro n
  induction n with
  | zero =>
    intro m s hle hm _ _
    exact absurd (Int.natAbs_eq_zero.mp (Nat.le_zero.mp hle)) hm
  | succ n ih =>
    intro m s hle hm hlo hinv
    rw [simplify_loop]
    by_cases h : m ≠ 0 ∧ m % 10 = 0
    · simp only [dif_pos h]
      obtain ⟨k, hk⟩ := Int.dvd_of_emod_eq_zero h.2
      have hk0 : k ≠ 0 := by
        rintro rfl
        simp at hk
        exact hm hk
      have hdiv : m / 10 = k := by
        rw [hk]
        exact Int.mul_ediv_cancel_left k (by norm_num)
      have hka : 1 ≤ k.natAbs := Int.natAbs_pos.mpr hk0
      have hma : m.natAbs = 10 * k.natAbs := by
        rw [hk, Int.natAbs_mul]
        rfl
      have hna : (m / 10).natAbs ≤ n := by
        rw [hdiv]
        omega
      have h1le : s + 1 ≤ i32Max := by
        have := hinv 1 (by rw [pow_one]; exact Int.dvd_of_emod_eq_zero h.2)
        omega
      have hwid : wrap_i32 (s + 1) = s + 1 := by
        unfold wrap_i32
        unfold i32Min at hlo
        unfold i32Max at h1le
        omega
      rw [hwid]
      have hinv2 : ∀ j : Nat, (10 : Int) ^ j ∣ m / 10 → (s + 1) + j ≤ i32Max := by
        intro j hj
        rw [hdiv] at hj
        obtain ⟨c, hc⟩ := hj
        have hj2 : (10 : Int) ^ (j + 1) ∣ m := by
          refine ⟨c, ?_⟩
          rw [hk, hc, pow_succ]
          ring
        have := hinv (j + 1) hj2
        push_cast at this ⊢
        omega
      have hrec := ih (m / 10) (s + 1) hna (by rw [hdiv]; exact hk0) (by omega) hinv2
      rw [hrec, hdiv, hk]
      push_cast
      rw [zpow_add_one₀ (by norm_num : (10 : Rat) ≠ 0)]
      ring
    · simp only [dif_neg h]

/-- KubeQuantity.new always produces a canonical quantity. -/
theorem KubeQuantity.new_canonical (m s : Int) : (KubeQuantity.new m s).canonical := by
  unfold KubeQuantity.new KubeQuantity.simplify
  by_cases hm : m = 0
  · subst hm
    simp [KubeQuantity.canonical]
  · simp only [hm, if_false]
    obtain ⟨h1, h2⟩ := simplify_loop_mantissa m.natAbs m s le_rfl hm
    exact Or.inr ⟨h1, h2⟩

/-- KubeQuantity.new is value-exact whenever the stored mantissa is in
i128 range and the scale has 38 units of i32 headroom (a nonzero i128
mantissa carries at most 38 removable factors of ten). -/
theorem KubeQuantity.new_val (m s : Int) (hm : |m| ≤ i128Max)
    (hlo : i32Min ≤ s) (hhi : s + 38 ≤ i32Max) :
    (KubeQuantity.new m s).toRat = (m : Rat) * (10 : Rat) ^ s := by
  unfold KubeQuantity.new KubeQuantity.simplify
  by_cases hm0 : m = 0
  · subst hm0
    simp [KubeQuantity.toRat]
  · simp only [hm0, if_false]
    have hinv : ∀ j : Nat, (10 : Int) ^ j ∣ m → s + j ≤ i32Max := by
      intro j hj
      have hle : (10 : Int) ^ j ≤ |m| :=
        Int.le_of_dvd (abs_pos.mpr hm0) ((dvd_abs _ _).mpr hj)
      have hj38 : j ≤ 38 := by
        by_contra hgt
        have h39 : (10 : Int) ^ 39 ≤ 10 ^ j := pow_le_pow_right₀ (by norm_num) (by omega)
        have hcon : (10 : Int) ^ 39 ≤ i128Max := le_trans h39 (le_trans hle hm)
        norm_num [i128Max] at hcon
      omega
    exact simplify_loop_val m.natAbs m s le_rfl hm0 hlo hinv

/-- Power-of-ten realignment of a mantissa between two scales. -/
theorem pow_align (m f t : Int) (h : t ≤ f) :
    ((m * 10 ^ (f - t).toNat : Int) : Rat) * (10 : Rat) ^ t = (m : Rat) * (10 : Rat) ^ f := by
  push_cast
  rw [mul_assoc, ← zpow_natCast (10 : Rat), ← zpow_add₀ (by norm_num : (10 : Rat) ≠ 0)]
  congr 2
  omega

/-- When the rescaled mantissa fits in i128 (and the scale gap is at most
38, so the power of ten itself fits), scale_mantissa computes the exact
product. -/
theorem scale_mantissa_eq (m f t : Int) (h0 : t ≤ f) (hd : f - t ≤ 38)
    (hm : |m| * 10 ^ (f - t).toNat ≤ i128Max) :
    scale_mantissa m f t = m * 10 ^ (f - t).toNat := by
  unfold scale_mantissa
  show (if wrap_i32 (f - t) ≤ 0 then m
    else wrap_i128 (m * wrap_i128 (10 ^ (wrap_i32 (f - t)).toNat))) = m * 10 ^ (f - t).toNat
  have hw32 : wrap_i32 (f - t) = f - t := by
    unfold wrap_i32
    omega
  rw [hw32]
  by_cases hle : f - t ≤ 0
  · rw [if_pos hle]
    have hz : f - t = 0 := by omega
    rw [hz]
    simp
  · rw [if_neg hle]
    have h38 : (10 : Int) ^ (f - t).toNat ≤ 10 ^ 38 := pow_le_pow_right₀ (by norm_num) (by omega)
    have h38v : (10 : Int) ^ 38 = 100000000000000000000000000000000000000 := by norm_num
    have hge : (0 : Int) ≤ 10 ^ (f - t).toNat := pow_nonneg (by norm_num) _
    have hp : wrap_i128 ((10 : Int) ^ (f - t).toNat) = 10 ^ (f - t).toNat := by
      rw [h38v] at h38
      unfold wrap_i128
      omega
    rw [hp]
    have h2 : |m * 10 ^ (f - t).toNat| = |m| * 10 ^ (f - t).toNat := by
      rw [abs_mul, abs_pow]
      norm_num
    have h3 : |m * 10 ^ (f - t).toNat| ≤ i128Max := by
      rw [h2]
      exact hm
    obtain ⟨hl, hr⟩ := abs_le.mp h3
    unfold i128Max at hl hr
    unfold wrap_i128
    omega

/-- Rescaling to a finer scale preserves the represented value when the
rescaled mantissa fits in i128. -/
theorem scale_mantissa_toRat (m f t : Int) (h : t ≤ f) (hd : f - t ≤ 38)
    (hm : |m| * 10 ^ (f - t).toNat ≤ i128Max) :
    ((scale_mantissa m f t : Int) : Rat) * (10 : Rat) ^ t = (m : Rat) * (10 : Rat) ^ f := by
  rw [scale_mantissa_eq m f t h hd hm]
  exact pow_align m f t h

/-- add is value-exact whenever no intermediate i128 value overflows: the
two rescaled absolute mantissas must sum within i128Max and the result
scale must keep 38 units of i32 headroom. -/
theorem KubeQuantity.add_spec (a b : KubeQuantity)
    (hs : i32Min ≤ min a.scale b.scale) (hsc : min a.scale b.scale + 38 ≤ i32Max)
    (hda : a.scale - min a.scale b.scale ≤ 38) (hdb : b.scale - min a.scale b.scale ≤ 38)
    (hov : |a.mantissa| * 10 ^ (a.scale - min a.scale b.scale).toNat +
        |b.mantissa| * 10 ^ (b.scale - min a.scale b.scale).toNat ≤ i128Max) :
    (a.add b).toRat = a.toRat + b.toRat := by
  have hmin_a := min_le_left a.scale b.scale
  have hmin_b := min_le_right a.scale b.scale
  have hpa : (0 : Int) ≤ 10 ^ (a.scale - min a.scale b.scale).toNat := pow_nonneg (by norm_num) _
  have hpb : (0 : Int) ≤ 10 ^ (b.scale - min a.scale b.scale).toNat := pow_nonneg (by norm_num) _
  have ha_ov : |a.mantissa| * 10 ^ (a.scale - min a.scale b.scale).toNat ≤ i128Max := by
    have := mul_nonneg (abs_nonneg b.mantissa) hpb
    linarith
  have hb_ov : |b.mantissa| * 10 ^ (b.scale - min a.scale b.scale).toNat ≤ i128Max := by
    have := mul_nonneg (abs_nonneg a.mantissa) hpa
    linarith
  have hea := scale_mantissa_eq a.mantissa a.scale (min a.scale b.scale) hmin_a hda ha_ov
  have heb := scale_mantissa_eq b.mantissa b.scale (min a.scale b.scale) hmin_b hdb hb_ov
  have habs : |scale_mantissa a.mantissa a.scale (min a.scale b.scale) +
      scale_mantissa b.mantissa b.scale (min a.scale b.scale)| ≤ i128Max := by
    rw [hea, heb]
    have h1 := abs_add (a.mantissa * 10 ^ (a.scale - min a.scale b.scale).toNat)
      (b.mantissa * 10 ^ (b.scale - min a.scale b.scale).toNat)
    have h2 : |a.mantissa * 10 ^ (a.scale - min a.scale b.scale).toNat| =
        |a.mantissa| * 10 ^ (a.scale - min a.scale b.scale).toNat := by
      rw [abs_mul, abs_pow]
      norm_num
    have h3 : |b.mantissa * 10 ^ (b.scale - min a.scale b.scale).toNat| =
        |b.mantissa| * 10 ^ (b.scale - min a.scale b.scale).toNat := by
      rw [abs_mul, abs_pow]
      norm_num
    linarith
  have hw : wrap_i128 (scale_mantissa a.mantissa a.scale (min a.scale b.scale) +
      scale_mantissa b.mantissa b.scale (min a.scale b.scale)) =
      scale_mantissa a.mantissa a.scale (min a.scale b.scale) +
      scale_mantissa b.mantissa b.scale (min a.scale b.scale) := by
    obtain ⟨hl, hr⟩ := abs_le.mp habs
    unfold i128Max at hl hr
    unfold wrap_i128
    omega
  show (KubeQuantity.new
    (wrap_i128 (scale_mantissa a.mantissa a.scale (min a.scale b.scale) +
      scale_mantissa b.mantissa b.scale (min a.scale b.scale)))
    (min a.scale b.scale)).toRat = a.toRat + b.toRat
  rw [hw, KubeQuantity.new_val _ _ habs hs hsc]
  push_cast
  rw [add_mul, scale_mantissa_toRat _ _ _ hmin_a hda ha_ov,
    scale_mantissa_toRat _ _ _ hmin_b hdb hb_ov]
  rfl

/-- sub is value-exact under the same no-overflow bounds as add. -/
theorem KubeQuantity.sub_spec (a b : KubeQuantity)
    (hs : i32Min ≤ min a.scale b.scale) (hsc : min a.scale b.scale + 38 ≤ i32Max)
    (hda : a.scale - min a.scale b.scale ≤ 38) (hdb : b.scale - min a.scale b.scale ≤ 38)
    (hov : |a.mantissa| * 10 ^ (a.scale - min a.scale b.scale).toNat +
        |b.mantissa| * 10 ^ (b.scale - min a.scale b.scale).toNat ≤ i128Max) :
    (a.sub b).toRat = a.toRat - b.toRat := by
  have hmin_a := min_le_left a.scale b.scale
  have hmin_b := min_le_right a.scale b.scale
  have hpa : (0 : Int) ≤ 10 ^ (a.scale - min a.scale b.scale).toNat := pow_nonneg (by norm_num) _
  have hpb : (0 : Int) ≤ 10 ^ (b.scale - min a.scale b.scale).toNat := pow_nonneg (by norm_num) _
  have ha_ov : |a.mantissa| * 10 ^ (a.scale - min a.scale b.scale).toNat ≤ i128Max := by
    have := mul_nonneg (abs_nonneg b.mantissa) hpb
    linarith
  have hb_ov : |b.mantissa| * 10 ^ (b.scale - min a.scale b.scale).toNat ≤ i128Max := by
    have := mul_nonneg (abs_nonneg a.mantissa) hpa
    linarith
  have hea := scale_mantissa_eq a.mantissa a.scale (min a.scale b.scale) hmin_a hda ha_ov
  have heb := scale_mantissa_eq b.mantissa b.scale (min a.scale b.scale) hmin_b hdb hb_ov
  have habs : |scale_mantissa a.mantissa a.scale (min a.scale b.scale) -
      scale_mantissa b.mantissa b.scale (min a.scale b.scale)| ≤ i128Max := by
    rw [hea, heb]
    have h1 := abs_sub (a.mantissa * 10 ^ (a.scale - min a.scale b.scale).toNat)
      (b.mantissa * 10 ^ (b.scale - min a.scale b.scale).toNat)
    have h2 : |a.mantissa * 10 ^ (a.scale - min a.scale b.scale).toNat| =
        |a.mantissa| * 10 ^ (a.scale - min a.scale b.scale).toNat := by
      rw [abs_mul, abs_pow]
      norm_num
    have h3 : |b.mantissa * 10 ^ (b.scale - min a.scale b.scale).toNat| =
        |b.mantissa| * 10 ^ (b.scale - min a.scale b.scale).toNat := by
      rw [abs_mul, abs_pow]
      norm_num
    linarith
  have hw : wrap_i128 (scale_mantissa a.mantissa a.scale (min a.scale b.scale) -
      scale_mantissa b.mantissa b.scale (min a.scale b.scale)) =
      scale_mantissa a.mantissa a.scale (min a.scale b.scale) -
      scale_mantissa b.mantissa b.scale (min a.scale b.scale) := by
    obtain ⟨hl, hr⟩ := abs_le.mp habs
    unfold i128Max at hl hr
    unfold wrap_i128
    omega
  show (KubeQuantity.new
    (wrap_i128 (scale_mantissa a.mantissa a.scale (min a.scale b.scale) -
      scale_mantissa b.mantissa b.scale (min a.scale b.scale)))
    (min a.scale b.scale)).toRat = a.toRat - b.toRat
  rw [hw, KubeQuantity.new_val _ _ habs hs hsc]
  push_cast
  rw [sub_mul, scale_mantissa_toRat _ _ _ hmin_a hda ha_ov,
    scale_mantissa_toRat _ _ _ hmin_b hdb hb_ov]
  rfl

/-- A zero-valued quantity has a zero mantissa. -/
theorem KubeQuantity.mantissa_eq_zero_of_toRat {q : KubeQuantity} (h : q.toRat = 0) :
    q.mantissa = 0 := by
  unfold KubeQuantity.toRat at h
  rcases mul_eq_zero.mp h with h1 | h1
  · exact_mod_cast h1
  · exact absurd h1 (zpow_ne_zero _ (by norm_num))

/-- Directed half of uniqueness: equal values and ordered scales force
equality of canonical quantities. -/
theorem canonical_inj_aux {q₁ q₂ : KubeQuantity} (h1 : q₁.canonical) (h2 : q₂.canonical)
    (hle : q₁.scale ≤ q₂.scale) (hv : q₁.toRat = q₂.toRat) : q₁ = q₂ := by
  rcases h1 with ⟨hm1, hs1⟩ | ⟨hm1, hd1⟩
  · have hv0 : q₂.toRat = 0 := by
      rw [← hv]
      simp [KubeQuantity.toRat, hm1]
    have hm2 := KubeQuantity.mantissa_eq_zero_of_toRat hv0
    rcases h2 with ⟨_, hs2⟩ | ⟨hne, _⟩
    · cases q₁
      cases q₂
      simp_all
    · exact absurd hm2 hne
  · rcases h2 with ⟨hm2, _⟩ | ⟨hm2, hd2⟩
    · exfalso
      have hv0 : q₁.toRat = 0 := by
        rw [hv]
        simp [KubeQuantity.toRat, hm2]
      exact hm1 (KubeQuantity.mantissa_eq_zero_of_toRat hv0)
    · have h10 : (10 : Rat) ≠ 0 := by norm_num
      have hd0 : 0 ≤ q₂.scale - q₁.scale := by omega
      have hQ : (q₁.mantissa : Rat) =
          (q₂.mantissa : Rat) * (10 : Rat) ^ (q₂.scale - q₁.scale).toNat := by
        have hstep : (q₁.mantissa : Rat) =
            (q₁.mantissa : Rat) * (10 : Rat) ^ q₁.scale * (10 : Rat) ^ (-q₁.scale) := by
          rw [mul_assoc, ← zpow_add₀ h10]
          simp
        rw [hstep]
        unfold KubeQuantity.toRat at hv
        rw [hv, mul_assoc, ← zpow_add₀ h10, ← zpow_natCast (10 : Rat)]
        rw [show q₂.scale + -q₁.scale = ((q₂.scale - q₁.scale).toNat : Int) from by omega]
      have key : q₁.mantissa = q₂.mantissa * 10 ^ (q₂.scale - q₁.scale).toNat := by
        exact_mod_cast hQ
      by_cases hdz : (q₂.scale - q₁.scale).toNat = 0
      · have hscale : q₁.scale = q₂.scale := by omega
        have hmant : q₁.mantissa = q₂.mantissa := by
          rw [key, hdz]
          ring
        cases q₁
        cases q₂
        simp_all
      · exfalso
        apply hd1
        refine ⟨q₂.mantissa * 10 ^ ((q₂.scale - q₁.scale).toNat - 1), ?_⟩
        rw [key]
        have hpow : (10 : Int) ^ (q₂.scale - q₁.scale).toNat =
            10 * 10 ^ ((q₂.scale - q₁.scale).toNat - 1) := by
          conv_lhs => rw [show (q₂.scale - q₁.scale).toNat =
            1 + ((q₂.scale - q₁.scale).toNat - 1) by omega]
          rw [pow_add, pow_one]
        rw [hpow]
        ring

/-- Canonical quantities are uniquely determined by their value. -/
theorem canonical_toRat_inj {q₁ q₂ : KubeQuantity} (h1 : q₁.canonical) (h2 : q₂.canonical)
    (hv : q₁.toRat = q₂.toRat) : q₁ = q₂ := by
  rcases le_total q₁.scale q₂.scale with hle | hle
  · exact canonical_inj_aux h1 h2 hle hv
  · exact (canonical_inj_aux h2 h1 hle hv.symm).symm

/-- Claim C8 as stated is false: adding 0.5 (stored as mantissa 5, scale
-1) to itself gives 1.0, whose canonical form has scale 0, not the finer
operand scale -1 — canonicalization after the addition moved the trailing
zero of mantissa 10 into the scale. -/
theorem claim_C8_counterexample :
    ¬ ((KubeQuantity.new 5 (-1)).add (KubeQuantity.new 5 (-1))).scale =
      min (KubeQuantity.new 5 (-1)).scale (KubeQuantity.new 5 (-1)).scale := by
  have e1 : simplify_loop 5 (-1) = (5, -1) := by
    rw [simplify_loop]
    norm_num
  have e2 : simplify_loop 1 0 = (1, 0) := by
    rw [simplify_loop]
    norm_num
  have e3 : simplify_loop 10 (-1) = (1, 0) := by
    rw [simplify_loop]
    norm_num [wrap_i32]
    exact e2
  have h5 : KubeQuantity.new 5 (-1) = ⟨5, -1⟩ := by
    unfold KubeQuantity.new KubeQuantity.simplify
    norm_num [e1]
  have hadd : (KubeQuantity.new 5 (-1)).add (KubeQuantity.new 5 (-1)) = ⟨1, 0⟩ := by
    rw [h5]
    unfold KubeQuantity.add KubeQuantity.new KubeQuantity.simplify scale_mantissa
    norm_num [e3, wrap_i32, wrap_i128]
  rw [hadd, h5]
  norm_num

/-- Claim C8, amended: add and sub align both operands to the finer
(smaller) of the two scales with wrapping i128/i32 arithmetic, sum or
subtract there, and canonicalize the result.  Results are always
canonical (trailing zero digits absorbed into the scale, a zero mantissa
forcing scale zero) — so the stored scale may differ from the finer input
scale — and canonical quantities with equal values are identical.  When
no intermediate i128 or i32 value overflows (the rescaled absolute
mantissas sum within i128Max and the result scale keeps 38 units of i32
headroom), add and sub are value-exact. -/
theorem claim_C8 :
    (∀ a b : KubeQuantity,
      a.add b = KubeQuantity.new
        (wrap_i128 (scale_mantissa a.mantissa a.scale (min a.scale b.scale) +
          scale_mantissa b.mantissa b.scale (min a.scale b.scale)))
        (min a.scale b.scale)) ∧
    (∀ m s : Int, (KubeQuantity.new m s).canonical) ∧
    (∀ a b : KubeQuantity, (a.add b).canonical ∧ (a.sub b).canonical) ∧
    (∀ a b : KubeQuantity,
      i32Min ≤ min a.scale b.scale → min a.scale b.scale + 38 ≤ i32Max →
      a.scale - min a.scale b.scale ≤ 38 → b.scale - min a.scale b.scale ≤ 38 →
      |a.mantissa| * 10 ^ (a.scale - min a.scale b.scale).toNat +
          |b.mantissa| * 10 ^ (b.scale - min a.scale b.scale).toNat ≤ i128Max →
      (a.add b).toRat = a.toRat + b.toRat ∧ (a.sub b).toRat = a.toRat - b.toRat) ∧
    (∀ q₁ q₂ : KubeQuantity, q₁.canonical → q₂.canonical → q₁.toRat = q₂.toRat → q₁ = q₂) := by
  refine ⟨?_, ?_, ?_, ?_, ?_⟩
  · intro a b
    rfl
  · intro m s
    exact KubeQuantity.new_canonical m s
  · intro a b
    exact ⟨KubeQuantity.new_canonical _ _, KubeQuantity.new_canonical _ _⟩
  · intro a b h1 h2 h3 h4 h5
    exact ⟨KubeQuantity.add_spec a b h1 h2 h3 h4 h5, KubeQuantity.sub_spec a b h1 h2 h3 h4 h5⟩
  · intro q₁ q₂ h1 h2 hv
    exact canonical_toRat_inj h1 h2 hv

/-- Witness for claim C8: concrete in-range quantities meeting the
no-overflow bounds, on which add and sub are exact. -/
theorem claim_C8_witness :
    ((⟨3, 2⟩ : KubeQuantity).add ⟨25, 1⟩).toRat =
        (⟨3, 2⟩ : KubeQuantity).toRat + (⟨25, 1⟩ : KubeQuantity).toRat ∧
      ((⟨3, 2⟩ : KubeQuantity).sub ⟨25, 1⟩).toRat =
        (⟨3, 2⟩ : KubeQuantity).toRat - (⟨25, 1⟩ : KubeQuantity).toRat :=
  claim_C8.2.2.2.1 ⟨3, 2⟩ ⟨25, 1⟩ (by decide) (by decide) (by decide) (by decide) (by decide)

/-! ### Transition-rule gating (claim C3) -/

/-- Claim C3: a compiled transition rule evaluated with no prior value is
skipped entirely (no error, no execution — the result is the empty list
for every engine) unless optionalOldSelf is true, in which case the rule
is executed exactly as if the prior value were null (the prior-object
variable is bound to null). -/
theorem claim_C3 :
    (∀ (E : CelEngine) (cr : CompilationResult E) (value : Json) (path : String),
      cr.is_transition_rule = true → cr.rule.optional_old_self ≠ some true →
      evaluate_rule E cr value Option.none path = []) ∧
    (∀ (E : CelEngine) (cr : CompilationResult E) (value : Json) (path : String),
      cr.rule.optional_old_self = some true →
      evaluate_rule E cr value Option.none path =
        evaluate_rule E cr value (some Json.null) path) := by
  constructor
  · intro E cr value path htr hopt
    simp [evaluate_rule, htr, hopt]
  · intro E cr value path hopt
    simp [evaluate_rule, hopt]

/-- Witness for claim C3 on the concrete engine: the transition rule is
skipped on create, and with optionalOldSelf the evaluation equals the
one with a null prior value. -/
theorem claim_C3_witness :
    evaluate_rule testEngine crGeOldSelf (Json.str "x") Option.none "f" = [] ∧
    evaluate_rule testEngine crOptOldSelf (Json.str "x") Option.none "f" =
      evaluate_rule testEngine crOptOldSelf (Json.str "x") (some Json.null) "f" :=
  ⟨claim_C3.1 testEngine crGeOldSelf (Json.str "x") "f" rfl (by decide),
   claim_C3.2 testEngine crOptOldSelf (Json.str "x") "f" rfl⟩

/-! ### Message resolution priority (claim C6) -/

/-- Claim C6: the failure message is resolved first-applicable-wins — a
compiled dynamic-message program that executes to a string wins;
otherwise (no program, execution error, or non-string result) the static
message, defaulting to the generated message containing the literal rule
text; a failing messageExpression compile leaves no message program; and
a failed rule appends exactly one error carrying the resolved message,
never a separate error for the message program. -/
theorem claim_C6 :
    (∀ (E : CelEngine) (cr : CompilationResult E) (ctx : CelCtx) (p : E.Prog) (s : String),
      cr.message_program = some p → E.execute p ctx = .ok (.string s) →
      resolve_message E cr ctx = s) ∧
    (∀ (E : CelEngine) (cr : CompilationResult E) (ctx : CelCtx),
      cr.message_program = Option.none →
      resolve_message E cr ctx = cr.rule.message.getD ("failed rule: " ++ cr.rule.rule)) ∧
    (∀ (E : CelEngine) (cr : CompilationResult E) (ctx : CelCtx) (p : E.Prog) (e : String),
      cr.message_program = some p → E.execute p ctx = .error e →
      resolve_message E cr ctx = cr.rule.message.getD ("failed rule: " ++ cr.rule.rule)) ∧
    (∀ (E : CelEngine) (cr : CompilationResult E) (ctx : CelCtx) (p : E.Prog) (v : CelValue),
      cr.message_program = some p → E.execute p ctx = .ok v → (∀ s, v ≠ .string s) →
      resolve_message E cr ctx = cr.rule.message.getD ("failed rule: " ++ cr.rule.rule)) ∧
    (∀ (E : CelEngine) (r : Rule) (mex err : String) (cr : CompilationResult E),
      r.message_expression = some mex → E.compile mex = .error err →
      compile_rule E r = .ok cr → cr.message_program = Option.none) ∧
    (∀ (E : CelEngine) (cr : CompilationResult E) (value old : Json) (path : String),
      E.execute cr.program ⟨json_to_cel value, some (json_to_cel old)⟩ = .ok (.bool false) →
      evaluate_rule E cr value (some old) path =
        [{ rule := cr.rule.rule,
           message := resolve_message E cr ⟨json_to_cel value, some (json_to_cel old)⟩,
           field_path := path, reason := cr.rule.reason }]) := by
  refine ⟨?_, ?_, ?_, ?_, ?_, ?_⟩
  · intro E cr ctx p s hp hexec
    simp [resolve_message, hp, hexec]
  · intro E cr ctx hp
    simp [resolve_message, hp]
  · intro E cr ctx p e hp hexec
    simp [resolve_message, hp, hexec]
  · intro E cr ctx p v hp hexec hns
    simp only [resolve_message, hp, hexec]
    cases v <;> simp_all
  · intro E r mex err cr hmex hcompile hcr
    unfold compile_rule at hcr
    rcases hc : E.compile r.rule with e | program <;> rw [hc] at hcr
    · cases hcr
    · cases hcr
      simp [hmex, hcompile, Except.toOption]
  · intro E cr value old path hexec
    simp [evaluate_rule, hexec]

/-- Witness for claim C6 on the concrete engine: the dynamic message
wins, and a failed rule produces exactly the one resolved error. -/
theorem claim_C6_witness :
    resolve_message testEngine crMsgDyn ⟨CelValue.null, Option.none⟩ = "dynamic message" ∧
    evaluate_rule testEngine crMsgDyn (Json.num (.negInt (-5))) (some (Json.num (.posInt 1))) "p" =
      [{ rule := "self >= 0",
         message := resolve_message testEngine crMsgDyn
           ⟨json_to_cel (Json.num (.negInt (-5))), some (json_to_cel (Json.num (.posInt 1)))⟩,
         field_path := "p", reason := Option.none }] := by
  constructor
  · exact claim_C6.1 testEngine crMsgDyn ⟨CelValue.null, Option.none⟩ TestProg.msgConst
      "dynamic message" rfl rfl
  · exact claim_C6.2.2.2.2.2 testEngine crMsgDyn (Json.num (.negInt (-5)))
      (Json.num (.posInt 1)) "p" (by simp [testEngine, testExecute, crMsgDyn,
        convert_number, JNumber.as_i64, i64Max])

/-! ### Invalid-rule entries (claim C10) -/

/-- Claim C10: a rules-array entry that fails to deserialize contributes,
at the owning node's path, exactly one error whose rule text is empty and
whose message begins with the words invalid rule definition, while the
sibling entries before and after it are still compiled and evaluated. -/
theorem claim_C10 :
    (∀ (E : CelEngine) (l1 l2 : List (Except CompilationError (CompilationResult E)))
       (e : String) (value : Json) (old_value : Option Json) (path : String),
      evaluate_compiled_results E (l1 ++ [.error (.invalidRule e)] ++ l2) value old_value path =
        evaluate_compiled_results E l1 value old_value path ++
        [{ rule := "", message := "invalid rule definition: " ++ e,
           field_path := path, reason := Option.none }] ++
        evaluate_compiled_results E l2 value old_value path) ∧
    validate testEngine
      (Json.obj [("x-kubernetes-validations", Json.arr
        [Json.obj [("rule", Json.str "self >= 0")],
         Json.num (.posInt 42),
         Json.obj [("rule", Json.str "self >= 0"), ("message", Json.str "m2")]])])
      (Json.num (.negInt (-5))) Option.none =
      [{ rule := "self >= 0", message := "failed rule: self >= 0",
         field_path := "", reason := Option.none },
       { rule := "", message := "invalid rule definition: invalid type: not an object",
         field_path := "", reason := Option.none },
       { rule := "self >= 0", message := "m2", field_path := "", reason := Option.none }] := by
  constructor
  · intro E l1 l2 e value old_value path
    simp [evaluate_compiled_results]
  · rw [validate, walk_schema_eq]
    simp +decide [evaluate_validations, compile_schema_validations, Json.get, lookupKey,
      rule_from_json, getOptString, getOptBool, compile_rule, testEngine, testCompile,
      evaluate_compiled_results, evaluate_rule, resolve_message, testExecute,
      convert_number, JNumber.as_i64, i64Max, Json.asObject, Json.asArray, Except.toOption,
      Bind.bind, Except.bind]

/-! ### Field paths (claim C9) -/

/-- Walking the replicas leaf of the spec.replicas example produces one
failure at the given path. -/
theorem walkC9_replicas (path : String) :
    walk_schema testEngine schemaC9_replicas (Json.num (.negInt (-1))) Option.none path =
      [{ rule := "self >= 0", message := "must be non-negative", field_path := path,
         reason := Option.none }] := by
  rw [walk_schema_eq]
  simp +decide [schemaC9_replicas, evaluate_validations, compile_schema_validations,
    Json.get, lookupKey, rule_from_json, getOptString, getOptBool, compile_rule,
    testEngine, testCompile, testHasOldSelf, evaluate_compiled_results, evaluate_rule,
    resolve_message, testExecute, convert_number, JNumber.as_i64, i64Max, Json.asObject,
    Json.asArray, Option.filter, Except.toOption, Bind.bind, Except.bind]

/-- Walking the spec node appends the property name to the path. -/
theorem walkC9_spec (path : String) :
    walk_schema testEngine schemaC9_spec (Json.obj [("replicas", Json.num (.negInt (-1)))])
      Option.none path =
      [{ rule := "self >= 0", message := "must be non-negative",
         field_path := join_path path "replicas", reason := Option.none }] := by
  rw [walk_schema_eq]
  simp +decide [schemaC9_spec, evaluate_validations, compile_schema_validations,
    evaluate_compiled_results, Json.get, lookupKey, Json.asObject, Json.asArray,
    Option.filter, walkC9_replicas]

/-- Claim C9: field paths are purely structural — the root path is empty,
descending into a property appends a dot and the name (bare name at the
root), descending into index i appends the bracketed index — and
validating the object with spec.replicas = -1 against a schema with the
rule at spec.replicas yields exactly one error whose field path is
spec.replicas. -/
theorem claim_C9 :
    (∀ s : String, join_path "" s = s) ∧
    (∀ b s : String, b ≠ "" → join_path b s = b ++ "." ++ s) ∧
    (∀ i : Nat, join_path_index "" i = "[" ++ toString i ++ "]") ∧
    (∀ (b : String) (i : Nat), b ≠ "" → join_path_index b i = b ++ "[" ++ toString i ++ "]") ∧
    validate testEngine schemaC9 objC9 Option.none =
      [{ rule := "self >= 0", message := "must be non-negative",
         field_path := "spec.replicas", reason := Option.none }] := by
  refine ⟨?_, ?_, ?_, ?_, ?_⟩
  · intro s
    simp [join_path]
  · intro b s hb
    simp [join_path, hb]
  · intro i
    simp [join_path_index]
  · intro b i hb
    simp [join_path_index, hb]
  · rw [validate, walk_schema_eq]
    simp +decide [schemaC9, objC9, evaluate_validations, compile_schema_validations,
      Json.get, lookupKey, Json.asObject, Json.asArray, Option.filter, walkC9_spec,
      join_path]

/-- Witness for claim C9 at a concrete nonempty base path. -/
theorem claim_C9_witness :
    ("a" : String) ≠ "" ∧ join_path "a" "b" = "a" ++ "." ++ "b" :=
  ⟨by decide, claim_C9.2.1 "a" "b" (by decide)⟩

/-! ### Positional prior-array matching (claim C4) -/

/-- Element 5 against prior 3 passes. -/
theorem walkC4_e0 (path : String) :
    walk_schema testEngine schemaC4_item (Json.num (.posInt 5))
      (some (Json.num (.posInt 3))) path = [] := by
  rw [walk_schema_eq]
  simp +decide [schemaC4_item, evaluate_validations, compile_schema_validations, Json.get,
    lookupKey, rule_from_json, getOptString, getOptBool, compile_rule, testEngine,
    testCompile, testHasOldSelf, evaluate_compiled_results, evaluate_rule, resolve_message,
    testExecute, convert_number, JNumber.as_i64, i64Max, Json.asObject, Json.asArray,
    Option.filter, Except.toOption, Bind.bind, Except.bind]

/-- Element 3 against prior 4 fails. -/
theorem walkC4_e1 (path : String) :
    walk_schema testEngine schemaC4_item (Json.num (.posInt 3))
      (some (Json.num (.posInt 4))) path =
      [{ rule := "self >= oldSelf", message := "failed rule: self >= oldSelf",
         field_path := path, reason := Option.none }] := by
  rw [walk_schema_eq]
  simp +decide [schemaC4_item, evaluate_validations, compile_schema_validations, Json.get,
    lookupKey, rule_from_json, getOptString, getOptBool, compile_rule, testEngine,
    testCompile, testHasOldSelf, evaluate_compiled_results, evaluate_rule, resolve_message,
    testExecute, convert_number, JNumber.as_i64, i64Max, Json.asObject, Json.asArray,
    Option.filter, Except.toOption, Bind.bind, Except.bind]

/-- Element 10 with no prior element: the transition rule is skipped. -/
theorem walkC4_e2 (path : String) :
    walk_schema testEngine schemaC4_item (Json.num (.posInt 10)) Option.none path = [] := by
  rw [walk_schema_eq]
  simp +decide [schemaC4_item, evaluate_validations, compile_schema_validations, Json.get,
    lookupKey, rule_from_json, getOptString, getOptBool, compile_rule, testEngine,
    testCompile, testHasOldSelf, evaluate_compiled_results, evaluate_rule, resolve_message,
    testExecute, convert_number, JNumber.as_i64, i64Max, Json.asObject, Json.asArray,
    Option.filter, Except.toOption, Bind.bind, Except.bind]

/-- Walking the items node of the array example: one failure, at index
1. -/
theorem walkC4_items (path : String) :
    walk_schema testEngine schemaC4_items
      (Json.arr [Json.num (.posInt 5), Json.num (.posInt 3), Json.num (.posInt 10)])
      (some (Json.arr [Json.num (.posInt 3), Json.num (.posInt 4)])) path =
      [{ rule := "self >= oldSelf", message := "failed rule: self >= oldSelf",
         field_path := join_path_index path 1, reason := Option.none }] := by
  rw [walk_schema_eq]
  simp +decide [schemaC4_items, evaluate_validations, compile_schema_validations,
    evaluate_compiled_results, Json.get, lookupKey, Json.asObject, Json.asArray,
    Option.filter, List.enum, List.enumFrom, List.get?, walkC4_e0, walkC4_e1, walkC4_e2]

/-- Claim C4: when a node has an items schema and the current value is an
array, each index i is walked with the prior value taken positionally
from the prior array at index i (none when out of range), and the
concrete example items [5,3,10] against prior [3,4] with the transition
rule self >= oldSelf on the items elements yields exactly one failure at
items[1]. -/
theorem claim_C4 :
    (∀ (E : CelEngine) (schema items_schema old : Json) (xs oldxs : List Json) (path : String),
      schema.get "items" = some items_schema → old.asArray = some oldxs →
      walk_schema E schema (Json.arr xs) (some old) path =
        evaluate_validations E schema (Json.arr xs) (some old) path ++
        xs.enum.flatMap (fun q =>
          walk_schema E items_schema q.2 (oldxs.get? q.1) (join_path_index path q.1))) ∧
    validate testEngine schemaC4 objC4 (some oldC4) =
      [{ rule := "self >= oldSelf", message := "failed rule: self >= oldSelf",
         field_path := "items[1]", reason := Option.none }] := by
  constructor
  · intro E schema items_schema old xs oldxs path hitems hold
    rw [walk_schema_eq]
    have h1 : (Json.arr xs).asObject = Option.none := rfl
    have h2 : (Json.arr xs).asArray = some xs := rfl
    simp only [h1, h2]
    split
    · rename_i habs
      exact (Option.noConfusion habs)
    split
    · rename_i its arr heq1 heq2
      rw [hitems] at heq1
      cases heq1
      cases heq2
      split
      · rename_i habs
        exact (Option.noConfusion habs)
      simp [hold]
    · rename_i hno
      exact (hno items_schema xs hitems rfl).elim
  · rw [validate, walk_schema_eq]
    simp +decide [schemaC4, objC4, oldC4, evaluate_validations, compile_schema_validations,
      Json.get, lookupKey, Json.asObject, Json.asArray, Option.filter, walkC4_items,
      join_path, join_path_index]

/-- Witness for claim C4 at a concrete schema and arrays. -/
theorem claim_C4_witness :
    walk_schema testEngine (Json.obj [("items", Json.str "x")]) (Json.arr [])
        (some (Json.arr [])) "" =
      evaluate_validations testEngine (Json.obj [("items", Json.str "x")]) (Json.arr [])
        (some (Json.arr [])) "" ++
      ([] : List Json).enum.flatMap (fun q =>
        walk_schema testEngine (Json.str "x") q.2 (([] : List Json).get? q.1)
          (join_path_index "" q.1)) :=
  claim_C4.1 testEngine (Json.obj [("items", Json.str "x")]) (Json.str "x")
    (Json.arr []) [] [] "" rfl rfl

/-! ### The interpreted and the compiled walk agree (claim C2) -/

/-- contains_key over a key-preserving mapped association list tests the
original key list. -/
theorem contains_key_map {β : Type} (props : List (String × Json)) (f : Json → β)
    (k : String) :
    contains_key (props.map (fun p => (p.1, f p.2))) k = (props.map Prod.fst).contains k := by
  simp only [contains_key, List.any_map]
  rw [Bool.eq_iff_iff]
  simp [List.contains_iff_exists_mem_beq]
  constructor
  · rintro ⟨x, a, b, hm, rfl, rfl⟩
    exact ⟨b, hm⟩
  · rintro ⟨b, hm⟩
    exact ⟨f b, k, b, hm, rfl, rfl⟩

/-- Walking the compiled tree of a schema agrees with walking the schema
itself, node for node. -/
theorem walk_compiled_compile_schema (E : CelEngine) :
    ∀ (n : Nat) (schema : Json), sizeOf schema < n →
      ∀ (value : Json) (old_value : Option Json) (path : String),
        walk_compiled E (compile_schema E schema) value old_value path =
          walk_schema E schema value old_value path := by
  intro n
  induction n with
  | zero => exact fun schema h => absurd h (Nat.not_lt_zero _)
  | succ n ih =>
    intro schema hn value old_value path
    rw [compile_schema_eq, walk_compiled_eq, walk_schema_eq]
    simp only [CompiledSchema.validations, CompiledSchema.properties, CompiledSchema.items,
      CompiledSchema.additional_properties]
    rw [evaluate_validations]
    congr 1
    congr 1
    congr 1
    · -- properties
      rcases hpv : (schema.get "properties").bind Json.asObject with _ | props <;>
        rcases hv : value.asObject with _ | objkvs <;> simp only [hpv, hv, List.flatMap_nil]
      rw [List.flatMap_map]
      refine List.flatMap_congr (fun p hp => ?_)
      rcases hl : lookupKey objkvs p.1 with _ | child_value <;> simp only [hl]
      have h1 := bind_asObject_sizeOf hpv
      have h2 := sizeOf_snd_lt_of_mem hp
      exact ih p.2 (by omega) child_value _ _
    · -- items
      rcases hi : schema.get "items" with _ | s <;>
        rcases ha : value.asArray with _ | arr <;> simp only [hi, ha]
      refine List.flatMap_congr (fun q hq => ?_)
      have h1 := Json.get_sizeOf hi
      exact ih s (by omega) q.2 _ _
    · -- additionalProperties
      rcases hf : (schema.get "additionalProperties").filter Json.isObject with _ | a <;>
        rcases hv : value.asObject with _ | objkvs <;> simp only [hf, hv]
      have h1 := Json.get_sizeOf (option_filter_eq_some hf).1
      rcases hpv : (schema.get "properties").bind Json.asObject with _ | props <;>
        simp only [hpv]
      · refine List.flatMap_congr (fun kv hkv => ?_)
        simp only [contains_key, List.any_nil, List.contains_nil,
          Bool.false_eq_true, if_false]
        exact ih a (by omega) kv.2 _ _
      · refine List.flatMap_congr (fun kv hkv => ?_)
        simp only [contains_key_map]
        rcases hc : (props.map Prod.fst).contains kv.1
        · simp only [hc, Bool.false_eq_true, if_false]
          exact ih a (by omega) kv.2 _ _
        · simp [hc]

/-- Claim C2: for every engine, schema document, object and optional
prior object, validate and validate_compiled-after-compile_schema produce
the same multiset of errors (in this embedding the association lists fix
one iteration order, under which the two lists are equal outright). -/
theorem claim_C2 (E : CelEngine) (schema object : Json) (old_object : Option Json) :
    (validate E schema object old_object : Multiset ValidationError) =
      (validate_compiled E (compile_schema E schema) object old_object : Multiset ValidationError) := by
  rw [validate, validate_compiled,
    walk_compiled_compile_schema E (sizeOf schema + 1) schema (Nat.lt_succ_self _)]

/-! ### Totality of value conversion and failure-as-entries (claim C5) -/

/-- convert_number never reaches the as_f64 unwrap panic: the checked
variant always returns the unchecked value. -/
theorem convert_number_checked_eq (n : JNumber) :
    convert_number_checked n = some (convert_number n) := by
  cases n <;>
    simp [convert_number_checked, convert_number, JNumber.as_i64, JNumber.as_u64,
      JNumber.as_f64] <;>
    split <;> simp

/-- optList over a list of manifestly-some elements. -/
theorem optList_map_some {α β : Type} (l : List α) (f : α → β) :
    optList (l.map (fun x => some (f x))) = some (l.map f) := by
  induction l with
  | nil => rfl
  | cons x xs ih => simp [optList, ih]

/-- json_to_cel never panics: the checked variant always returns the
unchecked value, on every JSON input. -/
theorem json_to_cel_checked_eq : ∀ j : Json, json_to_cel_checked j = some (json_to_cel j) := by
  have main : ∀ (n : Nat) (j : Json), sizeOf j < n →
      json_to_cel_checked j = some (json_to_cel j) := by
    intro n
    induction n with
    | zero => exact fun j h => absurd h (Nat.not_lt_zero _)
    | succ n ih =>
      intro j hj
      cases j with
      | null => simp [json_to_cel_checked]
      | bool b => simp [json_to_cel_checked]
      | str s => simp [json_to_cel_checked]
      | num m => simp [json_to_cel_checked, convert_number_checked_eq]
      | arr xs =>
        have hs : sizeOf (Json.arr xs) = 1 + sizeOf xs := by simp
        have hmap : xs.map json_to_cel_checked = xs.map (fun x => some (json_to_cel x)) := by
          refine List.map_congr_left (fun x hx => ?_)
          have h1 := List.sizeOf_lt_of_mem hx
          exact ih x (by omega)
        simp only [json_to_cel_checked]
        rw [attach_map_gen xs json_to_cel_checked, hmap,
          show optList (xs.map (fun x => some (json_to_cel x))) =
              some (xs.map json_to_cel) from optList_map_some xs _]
        simp
      | obj kvs =>
        have hs : sizeOf (Json.obj kvs) = 1 + sizeOf kvs := by simp
        have hmap : kvs.map (fun q => (json_to_cel_checked q.2).map (fun v => (q.1, v))) =
            kvs.map (fun q => some (q.1, json_to_cel q.2)) := by
          refine List.map_congr_left (fun q hq => ?_)
          have h1 := sizeOf_snd_lt_of_mem hq
          rw [ih q.2 (by omega)]
          rfl
        simp only [json_to_cel_checked]
        rw [attach_map_gen kvs (fun q => (json_to_cel_checked q.2).map (fun v => (q.1, v))),
          hmap,
          show optList (kvs.map (fun q => some (q.1, json_to_cel q.2))) =
              some (kvs.map (fun q => (q.1, json_to_cel q.2))) from optList_map_some kvs _]
        simp
  exact fun j => main (sizeOf j + 1) j (Nat.lt_succ_self _)

/-- evaluate_rule on a rule whose execution errors (and which is not
skipped as a transition rule) returns exactly the rule-evaluation-error
entry. -/
theorem evaluate_rule_exec_error {E : CelEngine} (cr : CompilationResult E)
    (value : Json) (old_value : Option Json) (path : String) (e : String)
    (h2 : E.execute cr.program
      { selfVar := json_to_cel value,
        oldSelfVar :=
          match old_value with
          | some old => some (json_to_cel old)
          | Option.none =>
            if cr.rule.optional_old_self = some true then some CelValue.null
            else Option.none } = Except.error e)
    (h1 : ¬(cr.is_transition_rule ∧ old_value.isNone ∧ cr.rule.optional_old_self ≠ some true)) :
    evaluate_rule E cr value old_value path =
      [{ rule := cr.rule.rule, message := "rule evaluation error: " ++ e,
         field_path := path, reason := Option.none }] := by
  simp only [evaluate_rule]
  rw [if_neg h1]
  simp only [h2]

/-- Claim C5: validation is total — value conversion never fails on any
JSON input (the unwrap inside convert_number cannot panic), and every
data-dependent failure becomes a returned entry: an engine parse failure
becomes a CompilationError carried to a failed-to-compile entry, an
execution error becomes a rule-evaluation-error entry, and a non-boolean
rule result becomes a did-not-evaluate-to-bool entry. -/
theorem claim_C5 :
    (∀ j : Json, json_to_cel_checked j = some (json_to_cel j)) ∧
    (∀ (E : CelEngine) (r : Rule) (e : String), E.compile r.rule = Except.error e →
      compile_rule E r = Except.error (CompilationError.parse r.rule e)) ∧
    (∀ (E : CelEngine) (rule source : String) (value : Json) (old_value : Option Json)
        (path : String),
      evaluate_compiled_results E [Except.error (CompilationError.parse rule source)]
          value old_value path =
        [{ rule := rule,
           message := "failed to compile rule \"" ++ rule ++ "\": " ++ source,
           field_path := path, reason := Option.none }]) ∧
    (∀ (E : CelEngine) (cr : CompilationResult E) (value : Json) (old_value : Option Json)
        (path : String) (e : String),
      ¬(cr.is_transition_rule ∧ old_value.isNone ∧ cr.rule.optional_old_self ≠ some true) →
      E.execute cr.program
          { selfVar := json_to_cel value,
            oldSelfVar :=
              match old_value with
              | some old => some (json_to_cel old)
              | Option.none =>
                if cr.rule.optional_old_self = some true then some CelValue.null
                else Option.none } = Except.error e →
      evaluate_rule E cr value old_value path =
        [{ rule := cr.rule.rule, message := "rule evaluation error: " ++ e,
           field_path := path, reason := Option.none }]) ∧
    (∀ (E : CelEngine) (cr : CompilationResult E) (value : Json) (old_value : Option Json)
        (path : String) (w : CelValue),
      ¬(cr.is_transition_rule ∧ old_value.isNone ∧ cr.rule.optional_old_self ≠ some true) →
      E.execute cr.program
          { selfVar := json_to_cel value,
            oldSelfVar :=
              match old_value with
              | some old => some (json_to_cel old)
              | Option.none =>
                if cr.rule.optional_old_self = some true then some CelValue.null
                else Option.none } = Except.ok w →
      (∀ b : Bool, w ≠ CelValue.bool b) →
      evaluate_rule E cr value old_value path =
        [{ rule := cr.rule.rule,
           message := "rule \"" ++ cr.rule.rule ++ "\" did not evaluate to bool",
           field_path := path, reason := Option.none }]) := by
  refine ⟨json_to_cel_checked_eq, ?_, ?_, ?_, ?_⟩
  · intro E r e he
    simp [compile_rule, he]
  · intro E rule source value old_value path
    simp [evaluate_compiled_results]
  · exact fun E cr value old_value path e hskip hexec =>
      evaluate_rule_exec_error cr value old_value path e hexec hskip
  · intro E cr value old_value path w hskip hexec hnb
    simp only [evaluate_rule]
    rw [if_neg hskip]
    simp only [hexec]
    cases w with
    | bool b => exact absurd rfl (hnb b)
    | null => rfl
    | int i => rfl
    | uint u => rfl
    | float q => rfl
    | string s => rfl
    | list l => rfl
    | map m => rfl
    | timestamp t => rfl
    | duration d => rfl

/-- Witness for claim C5: a concrete rule whose execution errors yields
exactly the rule-evaluation-error entry. -/
theorem claim_C5_witness :
    evaluate_rule testEngine crMsgDyn (Json.str "x") Option.none "p" =
      [{ rule := "self >= 0", message := "rule evaluation error: no such overload",
         field_path := "p", reason := Option.none }] :=
  claim_C5.2.2.2.1 testEngine crMsgDyn (Json.str "x") Option.none "p" "no such overload"
    (by simp [crMsgDyn]) (by simp [testEngine, crMsgDyn, testExecute])

/-! ### Format-aware binding (claim C1)

The repository's own integration test timestamp_comparison_passes puts a
format date-time on the expiresAt property and the rule
self.expiresAt > timestamp("2024-01-01T00:00:00Z") at the root, and
expects no errors on {"expiresAt": "2025-06-15T12:00:00Z"}.  The engine
below distinguishes a timestamp binding from a string binding the way CEL
does (string > timestamp has no overload). -/

/-- Programs of the timestamp test engine. -/
inductive TsProg where
  | exGt
deriving DecidableEq, Repr

/-- The rule text of the date-time example. -/
def ruleC1 : String := "self.expiresAt > timestamp(\"2024-01-01T00:00:00Z\")"

/-- Compilation for the timestamp test engine. -/
def tsCompile (s : String) : Except String TsProg :=
  if s = ruleC1 then .ok .exGt else .error "parse error"

/-- Referenced-variable check for the timestamp test engine. -/
def tsHasOldSelf : TsProg → Bool := fun _ => false

/-- Execution for the timestamp test engine: comparing the expiresAt
field against a timestamp succeeds only on a timestamp binding; on a
string binding there is no overload, as in CEL. -/
def tsExecute : TsProg → CelCtx → Except String CelValue
  | .exGt, ctx =>
    match ctx.selfVar with
    | .map kvs =>
      match kvs.lookup "expiresAt" with
      | some (.timestamp t) => .ok (.bool (1704067200 < t))
      | some _ => .error "no such overload"
      | Option.none => .error "no such key: expiresAt"
    | _ => .error "no such overload"

/-- The timestamp test engine. -/
def tsEngine : CelEngine :=
  { Prog := TsProg, compile := tsCompile, hasOldSelf := tsHasOldSelf,
    execute := tsExecute }

/-- A model of the chrono RFC 3339 parser on the strings of the
example. -/
def chC1 : Chrono :=
  ⟨fun s => if s = "2025-06-15T12:00:00Z" then some 1749988800 else Option.none⟩

/-- The expiresAt property schema: a string with format date-time. -/
def schemaC1_expiresAt : Json :=
  Json.obj [("type", Json.str "string"), ("format", Json.str "date-time")]

/-- The root schema of the date-time example. -/
def schemaC1 : Json :=
  Json.obj [("type", Json.str "object"),
            ("properties", Json.obj [("expiresAt", schemaC1_expiresAt)]),
            ("x-kubernetes-validations", Json.arr
              [Json.obj [("rule", Json.str ruleC1),
                         ("message", Json.str "must expire after 2024")]])]

/-- The object of the date-time example. -/
def objC1 : Json := Json.obj [("expiresAt", Json.str "2025-06-15T12:00:00Z")]

/-- The leaf of the date-time example produces no errors of its own,
under any engine. -/
theorem walkC1_leaf (E : CelEngine) (path : String) :
    walk_schema E schemaC1_expiresAt (Json.str "2025-06-15T12:00:00Z")
      Option.none path = [] := by
  rw [walk_schema_eq]
  simp +decide [schemaC1_expiresAt, evaluate_validations, compile_schema_validations,
    evaluate_compiled_results, Json.get, lookupKey, Json.asObject, Json.asArray,
    Option.filter]

/-- Root-rule evaluation of the date-time example: the rule errors
because self is bound through the format-free json_to_cel. -/
theorem walkC1_eval (path : String) :
    evaluate_validations tsEngine schemaC1 objC1 Option.none path =
      [{ rule := ruleC1, message := "rule evaluation error: no such overload",
         field_path := path, reason := Option.none }] := by
  simp +decide [schemaC1, objC1, ruleC1, evaluate_validations, compile_schema_validations,
    Json.get, lookupKey, rule_from_json, getOptString, getOptBool, compile_rule,
    tsEngine, tsCompile, tsHasOldSelf, evaluate_compiled_results,
    Except.toOption, Bind.bind, Except.bind]
  refine evaluate_rule_exec_error _ _ _ _ "no such overload" ?_ (by decide)
  show tsEngine.execute TsProg.exGt
      { selfVar := json_to_cel (Json.obj [("expiresAt", Json.str "2025-06-15T12:00:00Z")]),
        oldSelfVar := Option.none } = Except.error "no such overload"
  rw [show json_to_cel (Json.obj [("expiresAt", Json.str "2025-06-15T12:00:00Z")]) =
      CelValue.map [("expiresAt", CelValue.string "2025-06-15T12:00:00Z")] from by simp]
  simp +decide [tsEngine, tsExecute, List.lookup]

/-- Claim C1 diverges from the code: the format-aware converter of
values.rs turns the date-time string into a timestamp, on which the
example rule evaluates to true (so under the claimed binding validation
reports nothing), but the validator of validation.rs binds self through
the format-free json_to_cel, so the same rule fails with a no-such-
overload evaluation error. -/
theorem claim_C1 :
    convert_string_with_format chC1 "2025-06-15T12:00:00Z"
        (SchemaFormat.from_schema schemaC1_expiresAt) = CelValue.timestamp 1749988800 ∧
    tsExecute TsProg.exGt
        { selfVar := CelValue.map [("expiresAt", CelValue.timestamp 1749988800)],
          oldSelfVar := Option.none } = Except.ok (CelValue.bool true) ∧
    json_to_cel objC1 = CelValue.map [("expiresAt", CelValue.string "2025-06-15T12:00:00Z")] ∧
    validate tsEngine schemaC1 objC1 Option.none =
      [{ rule := ruleC1, message := "rule evaluation error: no such overload",
         field_path := "", reason := Option.none }] := by
  refine ⟨?_, ?_, ?_, ?_⟩
  · simp +decide [convert_string_with_format, SchemaFormat.from_schema, schemaC1_expiresAt,
      Json.get, lookupKey, chC1]
  · rfl
  · simp [objC1]
  · rw [validate, walk_schema_eq, walkC1_eval]
    simp +decide [schemaC1, objC1, Json.get, lookupKey, Json.asObject, Json.asArray,
      Option.filter, walkC1_leaf, join_path]

end KubeCel
